import Mathlib

/-!
Verification development for the analytic core of a daily-aspects pipeline:
aspect classification (`calculate_aspects`), pattern detection (the six
`detect_*` functions), and pattern scoring (`add_pattern_strength_scores`)
from `fetch_aspects.py`.

Embedding conventions:
- Python floats (degrees, speeds, scores) are embedded as `ℚ`; decimal
  literals such as 0.84 become exact rationals (84/100).
- Python `x % 360.0` (result in [0, 360) for positive modulus) is embedded
  as `pymod`, and `round(x, 3)` (round-half-to-even of `x * 1000`) as
  `round3`.
- Body and aspect names are `String`s.  Python string comparison
  (lexicographic by code point, as used by `sorted`) is embedded by the
  executable order `charsLt` / `strLt` / `strLe` on `String.data`, since
  the core comparison functions on `String` itself do not evaluate inside
  the kernel.  Python `str.lower()` on the ASCII names appearing here is
  `lowerStr`.
- Dictionaries with known fixed contents (ORBS, BODY_WEIGHT, ASPECT_FAMILY,
  ASPECT_VIBE) become total lookup functions with the same default as the
  corresponding `.get` call; the iteration order of `ASPECT_DEFS.items()`
  (Python dict insertion order) becomes the list `ASPECT_DEFS`.
- The skyfield position retrieval is out of scope: `calcAspects` models
  `calculate_aspects` from the point where `positions`/`speeds` are built,
  taking the sorted key list and the two lookup maps as arguments.
- The presentation-only `positions` sub-dictionary and the sign-name
  strings of an emitted aspect are omitted from the `Aspect` record; no
  claim refers to them.
-/

/-! ### Lexicographic string order (Python string comparison) -/

/-- Strict lexicographic order on char lists, by code point; this is how
Python compares strings (as used by `sorted`). -/
def charsLt : List Char → List Char → Bool
  | _, [] => false
  | [], _ :: _ => true
  | a :: as, b :: bs => if a < b then true else if a = b then charsLt as bs else false

/-- Python `a < b` on strings. -/
def strLt (a b : String) : Prop := charsLt a.data b.data = true

/-- Python `a <= b` on strings. -/
def strLe (a b : String) : Prop := strLt a b ∨ a = b

instance strLt.decRel : DecidableRel strLt := fun _ _ => instDecidableEqBool _ _

instance strLe.decRel : DecidableRel strLe := fun _ _ => instDecidableOr

lemma charsLt_irrefl (l : List Char) : charsLt l l = false := by
  induction l with
  | nil => rfl
  | cons a as ih => simp [charsLt, ih]

lemma charsLt_trans : ∀ {l1 l2 l3 : List Char}, charsLt l1 l2 = true →
    charsLt l2 l3 = true → charsLt l1 l3 = true := by
  intro l1 l2 l3 h1 h2
  induction l3 generalizing l1 l2 with
  | nil => cases l2 <;> simp [charsLt] at h2
  | cons c cs ih =>
    cases l1 with
    | nil => rfl
    | cons a as =>
      cases l2 with
      | nil => simp [charsLt] at h1
      | cons b bs =>
        simp only [charsLt] at h1 h2 ⊢
        by_cases hab : a < b
        · by_cases hbc : b < c
          · simp [lt_trans hab hbc]
          · simp only [if_pos hab, if_neg hbc] at h1 h2
            by_cases hbc' : b = c
            · simp [hbc' ▸ hab]
            · simp [hbc'] at h2
        · simp only [if_neg hab] at h1
          by_cases hab' : a = b
          · subst hab'
            simp only [if_pos rfl] at h1
            by_cases hac : a < c
            · simp [hac]
            · simp only [if_neg hac] at h2 ⊢
              by_cases hac' : a = c
              · simpa [hac'] using ih h1 (by simpa [hac'] using h2)
              · simp [hac'] at h2
          · simp [hab'] at h1

lemma charsLt_conn : ∀ {l1 l2 : List Char}, charsLt l1 l2 = false →
    charsLt l2 l1 = false → l1 = l2 := by
  intro l1 l2 h1 h2
  induction l1 generalizing l2 with
  | nil => cases l2 with
    | nil => rfl
    | cons b bs => simp [charsLt] at h1
  | cons a as ih =>
    cases l2 with
    | nil => simp [charsLt] at h2
    | cons b bs =>
      simp only [charsLt] at h1 h2
      by_cases hab : a < b
      · simp [hab] at h1
      · by_cases hba : b < a
        · simp [hba] at h2
        · have hab' : a = b := le_antisymm (not_lt.mp hba) (not_lt.mp hab)
          subst hab'
          simp only [if_neg hab, if_pos rfl] at h1 h2
          rw [ih h1 h2]

lemma charsLt_asymm {l1 l2 : List Char} (h : charsLt l1 l2 = true) :
    charsLt l2 l1 = false := by
  by_contra hne
  have h2 : charsLt l2 l1 = true := by
    revert hne; cases charsLt l2 l1 <;> simp
  have h3 := charsLt_trans h h2
  simp [charsLt_irrefl] at h3

lemma String.eq_of_data {a b : String} (h : a.data = b.data) : a = b := by
  cases a; cases b; exact congrArg String.mk h

lemma strLt_irrefl (a : String) : ¬ strLt a a := by
  simp [strLt, charsLt_irrefl]

lemma strLt_trans {a b c : String} (h1 : strLt a b) (h2 : strLt b c) : strLt a c :=
  charsLt_trans h1 h2

lemma strLt_asymm {a b : String} (h : strLt a b) : ¬ strLt b a := by
  intro h2
  exact absurd (strLt_trans h h2) (strLt_irrefl a)

lemma strLt_ne {a b : String} (h : strLt a b) : a ≠ b := by
  rintro rfl
  exact strLt_irrefl a h

lemma strLe_total (a b : String) : strLe a b ∨ strLe b a := by
  by_cases hab : charsLt a.data b.data = true
  · exact Or.inl (Or.inl hab)
  · by_cases hba : charsLt b.data a.data = true
    · exact Or.inr (Or.inl hba)
    · exact Or.inl (Or.inr (String.eq_of_data
        (charsLt_conn (Bool.not_eq_true _ ▸ hab) (Bool.not_eq_true _ ▸ hba))))

lemma strLe_trans {a b c : String} (h1 : strLe a b) (h2 : strLe b c) : strLe a c := by
  rcases h1 with h1 | rfl
  · rcases h2 with h2 | rfl
    · exact Or.inl (strLt_trans h1 h2)
    · exact Or.inl h1
  · exact h2

lemma strLt_of_le_of_ne {a b : String} (h : strLe a b) (hne : a ≠ b) : strLt a b := by
  rcases h with h | rfl
  · exact h
  · exact absurd rfl hne

lemma strLe_of_lt {a b : String} (h : strLt a b) : strLe a b := Or.inl h

instance strLe_isTotal : IsTotal String strLe := ⟨strLe_total⟩

instance strLe_isTrans : IsTrans String strLe := ⟨fun _ _ _ => strLe_trans⟩

/-- Python `sorted` on a list of strings. -/
def sortStr (l : List String) : List String := l.insertionSort strLe

lemma sortStr_sorted (l : List String) : List.Sorted strLe (sortStr l) :=
  List.sorted_insertionSort strLe l

lemma sortStr_perm (l : List String) : (sortStr l).Perm l :=
  List.perm_insertionSort strLe l

lemma sortStr_eq_of_sorted {l : List String} (h : List.Sorted strLe l) :
    sortStr l = l :=
  List.Sorted.insertionSort_eq h

lemma sortStr_mem {a : String} {l : List String} : a ∈ sortStr l ↔ a ∈ l :=
  (sortStr_perm l).mem_iff

lemma sortStr_nodup {l : List String} (h : l.Nodup) : (sortStr l).Nodup :=
  ((sortStr_perm l).nodup_iff).mpr h

lemma sorted_strLt_of_le_nodup {l : List String} (hs : List.Sorted strLe l)
    (hn : l.Nodup) : List.Sorted strLt l :=
  (hs.and hn).imp fun h => strLt_of_le_of_ne h.1 h.2

lemma sortStr_sorted_lt {l : List String} (hn : l.Nodup) :
    List.Sorted strLt (sortStr l) :=
  sorted_strLt_of_le_nodup (sortStr_sorted l) (sortStr_nodup hn)

/-! ### Arithmetic helpers: Python float modulus and `round(x, 3)` -/

/-- Python `x % y` for positive `y` (result in `[0, y)`). -/
def pymod (x y : ℚ) : ℚ := x - y * ⌊x / y⌋

lemma pymod_nonneg (x : ℚ) {y : ℚ} (hy : 0 < y) : 0 ≤ pymod x y := by
  have h := Int.floor_le (x / y)
  have h2 : y * ⌊x / y⌋ ≤ y * (x / y) := by
    exact mul_le_mul_of_nonneg_left h (le_of_lt hy)
  rw [mul_div_cancel₀ x (ne_of_gt hy)] at h2
  simpa [pymod] using h2

lemma pymod_lt (x : ℚ) {y : ℚ} (hy : 0 < y) : pymod x y < y := by
  have h := Int.lt_floor_add_one (x / y)
  have h2 : y * (x / y) < y * (⌊x / y⌋ + 1) := mul_lt_mul_of_pos_left h hy
  rw [mul_div_cancel₀ x (ne_of_gt hy)] at h2
  have h3 : x < y * ⌊x / y⌋ + y := by ring_nf at h2 ⊢; linarith
  simp only [pymod]
  linarith

/-- Round-half-to-even to the nearest integer: the embedding of Python
`round` applied to an exact rational value. -/
def rhe (x : ℚ) : ℤ :=
  if x - ⌊x⌋ < 1/2 then ⌊x⌋
  else if (1:ℚ)/2 < x - ⌊x⌋ then ⌊x⌋ + 1
  else if ⌊x⌋ % 2 = 0 then ⌊x⌋ else ⌊x⌋ + 1

/-- Python `round(x, 3)`. -/
def round3 (x : ℚ) : ℚ := (rhe (x * 1000) : ℚ) / 1000

lemma floor_le_rhe (x : ℚ) : ⌊x⌋ ≤ rhe x := by
  unfold rhe
  split_ifs <;> omega

lemma rhe_le_floor_add_one (x : ℚ) : rhe x ≤ ⌊x⌋ + 1 := by
  unfold rhe
  split_ifs <;> omega

lemma rhe_mono {x y : ℚ} (h : x ≤ y) : rhe x ≤ rhe y := by
  have hf : ⌊x⌋ ≤ ⌊y⌋ := Int.floor_le_floor h
  rcases lt_or_eq_of_le hf with hlt | heq
  · calc rhe x ≤ ⌊x⌋ + 1 := rhe_le_floor_add_one x
      _ ≤ ⌊y⌋ := by omega
      _ ≤ rhe y := floor_le_rhe y
  · have hr : x - ⌊x⌋ ≤ y - ⌊y⌋ := by
      rw [← heq]
      linarith
    unfold rhe
    rw [← heq]
    split_ifs with h1 h2 h3 h4 h5 h6 h7 h8 <;> try omega
    all_goals linarith

lemma rhe_intCast (n : ℤ) : rhe (n : ℚ) = n := by
  unfold rhe
  rw [Int.floor_intCast]
  have h : (n : ℚ) - n = 0 := by ring
  rw [h]
  norm_num

lemma round3_mono {x y : ℚ} (h : x ≤ y) : round3 x ≤ round3 y := by
  unfold round3
  have := rhe_mono (mul_le_mul_of_nonneg_right h (by norm_num : (0:ℚ) ≤ 1000))
  have hcast : (rhe (x * 1000) : ℚ) ≤ (rhe (y * 1000) : ℚ) := by exact_mod_cast this
  linarith

lemma round3_nonneg {x : ℚ} (h : 0 ≤ x) : 0 ≤ round3 x := by
  have h0 : round3 0 ≤ round3 x := round3_mono h
  have : round3 0 = 0 := by
    unfold round3
    rw [show ((0:ℚ) * 1000) = ((0:ℤ) : ℚ) by norm_num, rhe_intCast]
    norm_num
  linarith

lemma round3_le_one {x : ℚ} (h : x ≤ 1) : round3 x ≤ 1 := by
  have h0 : round3 x ≤ round3 1 := round3_mono h
  have : round3 1 = 1 := by
    unfold round3
    rw [show ((1:ℚ) * 1000) = ((1000:ℤ) : ℚ) by norm_num, rhe_intCast]
    norm_num
  linarith

/-- Python `str.lower()` restricted to ASCII (sufficient for the body and
aspect names appearing in this program). -/
def lowerChar (c : Char) : Char :=
  if 65 ≤ c.toNat ∧ c.toNat ≤ 90 then Char.ofNat (c.toNat + 32) else c

/-- Python `s.lower()`. -/
def lowerStr (s : String) : String := ⟨s.data.map lowerChar⟩

/-! ### Configuration tables -/

/-- The `ASPECT_DEFS` dictionary: aspect name with its ideal angle, in
Python dict insertion order (the iteration order of `.items()`). -/
def ASPECT_DEFS : List (String × ℚ) :=
  [("conjunction", 0), ("semi-sextile", 30), ("semi-square", 45),
   ("sextile", 60), ("quintile", 72), ("square", 90), ("trine", 120),
   ("sesquiquadrate", 135), ("quincunx", 150), ("opposition", 180)]

/-- `ORBS.get(aspect_name, ASPECT_TOLERANCE_DEG)` with
`ASPECT_TOLERANCE_DEG = 8.0`. -/
def orbLimit (name : String) : ℚ :=
  if name = "conjunction" then 8 else if name = "opposition" then 8
  else if name = "trine" then 6 else if name = "square" then 6
  else if name = "sextile" then 4 else if name = "quincunx" then 3
  else if name = "quintile" then 2 else if name = "semi-square" then 2
  else if name = "semi-sextile" then 2 else if name = "sesquiquadrate" then 2
  else 8

lemma orbLimit_pos (name : String) : 0 < orbLimit name := by
  unfold orbLimit
  split_ifs <;> norm_num

lemma orbLimit_lt_999 (name : String) : orbLimit name < 999 := by
  unfold orbLimit
  split_ifs <;> norm_num

/-- `ASPECT_FAMILY.get(aspect_name, None)`. -/
def aspectFamily (name : String) : Option String :=
  if name = "conjunction" then some "1st-harmonic"
  else if name = "opposition" then some "2nd-harmonic"
  else if name = "trine" then some "3rd-harmonic"
  else if name = "square" then some "4th-harmonic"
  else if name = "sextile" then some "6th-harmonic"
  else if name = "quincunx" then some "12th-harmonic"
  else if name = "semi-sextile" then some "12th-harmonic"
  else if name = "semi-square" then some "8th-harmonic"
  else if name = "sesquiquadrate" then some "8th-harmonic"
  else if name = "quintile" then some "5th-harmonic"
  else none

/-- `ASPECT_VIBE.get(aspect_name, "neutral")`. -/
def aspectVibe (name : String) : String :=
  if name = "conjunction" then "neutral" else if name = "opposition" then "tension"
  else if name = "trine" then "harmony" else if name = "square" then "tension"
  else if name = "sextile" then "harmony" else if name = "quincunx" then "neutral"
  else if name = "semi-sextile" then "neutral" else if name = "semi-square" then "tension"
  else if name = "sesquiquadrate" then "tension" else if name = "quintile" then "harmony"
  else "neutral"

/-- `BODY_WEIGHT.get(name.lower(), 1.0)`. -/
def bodyWeight (name : String) : ℚ :=
  let s := lowerStr name
  if s = "sun" then 5/4 else if s = "moon" then 5/4
  else if s = "mercury" then 1 else if s = "venus" then 1
  else if s = "mars" then 21/20 else if s = "jupiter" then 21/20
  else if s = "saturn" then 21/20 else if s = "uranus" then 19/20
  else if s = "neptune" then 19/20 else 1

lemma bodyWeight_nonneg (name : String) : 0 ≤ bodyWeight name := by
  simp only [bodyWeight]
  split_ifs <;> norm_num

/-! ### Angular separation (`norm180`, `angular_distance`) -/

/-- `norm180`: normalize any angle to the 0..180 shortest separation. -/
def norm180 (angle : ℚ) : ℚ :=
  let a := pymod angle 360
  if a ≤ 180 then a else 360 - a

/-- `angular_distance`: shortest angular distance between two longitudes. -/
def angularDistance (a b : ℚ) : ℚ := norm180 |a - b|

lemma norm180_nonneg (angle : ℚ) : 0 ≤ norm180 angle := by
  simp only [norm180]
  have h0 : (0:ℚ) < 360 := by norm_num
  have h1 := pymod_nonneg angle h0
  have h2 := pymod_lt angle h0
  split_ifs with h <;> linarith

lemma norm180_le_180 (angle : ℚ) : norm180 angle ≤ 180 := by
  simp only [norm180]
  have h0 : (0:ℚ) < 360 := by norm_num
  have h1 := pymod_nonneg angle h0
  split_ifs with h <;> linarith

/-! ### Closest-aspect selection (the inner loop of `calculate_aspects`) -/

/-- The condition `orb <= orb_limit` for an aspect definition. -/
def passes (angle : ℚ) (d : String × ℚ) : Prop := |angle - d.2| ≤ orbLimit d.1

instance passes.dec (angle : ℚ) (d : String × ℚ) : Decidable (passes angle d) := by
  unfold passes
  infer_instance

/-- The loop `for aspect_name, ideal in ASPECT_DEFS.items(): ...` keeping
the best (name, ideal, orb) and best orb seen so far. -/
def bestAux (angle : ℚ) : List (String × ℚ) →
    Option (String × ℚ × ℚ) × ℚ → Option (String × ℚ × ℚ) × ℚ
  | [], acc => acc
  | d :: rest, acc =>
    if |angle - d.2| ≤ orbLimit d.1 ∧ |angle - d.2| < acc.2 then
      bestAux angle rest (some (d.1, d.2, |angle - d.2|), |angle - d.2|)
    else bestAux angle rest acc

/-- `best` after the loop, starting from `best = None`, `best_orb = 999.0`. -/
def bestAspect (angle : ℚ) : Option (String × ℚ × ℚ) :=
  (bestAux angle ASPECT_DEFS (none, 999)).1

/-- Characterization of the loop result: `none` means no definition passed;
`some (n, i, o)` means `(n, i)` passes with orb `o`, every earlier passing
definition has a strictly larger orb, and every later passing definition has
an orb at least `o` (minimum orb wins, ties go to the earlier definition). -/
def BestFor (angle : ℚ) (l : List (String × ℚ)) : Option (String × ℚ × ℚ) → Prop
  | none => ∀ d ∈ l, ¬ passes angle d
  | some (n, i, o) =>
      o = |angle - i| ∧ passes angle (n, i) ∧
      ∃ pre post, l = pre ++ (n, i) :: post ∧
        (∀ d ∈ pre, passes angle d → o < |angle - d.2|) ∧
        (∀ d ∈ post, passes angle d → o ≤ |angle - d.2|)

/-- Invariant tying the tracked `best_orb` to the tracked `best`. -/
def boInv : Option (String × ℚ × ℚ) → ℚ → Prop
  | none, bo => bo = 999
  | some (_, _, o), bo => bo = o

lemma bestAux_spec (angle : ℚ) (rest : List (String × ℚ)) :
    ∀ processed best bo, BestFor angle processed best → boInv best bo →
    BestFor angle (processed ++ rest) (bestAux angle rest (best, bo)).1 ∧
    boInv (bestAux angle rest (best, bo)).1 (bestAux angle rest (best, bo)).2 := by
  induction rest with
  | nil =>
    intro processed best bo hb hbo
    simpa [bestAux] using ⟨hb, hbo⟩
  | cons d rest ih =>
    intro processed best bo hb hbo
    rw [bestAux]
    by_cases hc : |angle - d.2| ≤ orbLimit d.1 ∧ |angle - d.2| < bo
    · rw [if_pos hc]
      have hstep : BestFor angle (processed ++ [d]) (some (d.1, d.2, |angle - d.2|)) := by
        refine ⟨rfl, hc.1, processed, [], by simp, ?_, by simp⟩
        intro p hp hpass
        cases best with
        | none =>
          exact absurd hpass (hb p hp)
        | some t =>
          obtain ⟨n, i, o⟩ := t
          obtain ⟨ho, hpassni, pre, post, hdec, hpre, hpost⟩ := hb
          subst hdec
          have hbo' : bo = o := hbo
          rcases List.mem_append.mp hp with hp' | hp'
          · exact lt_trans (hbo' ▸ hc.2) (hpre p hp' hpass)
          · rcases List.mem_cons.mp hp' with rfl | hp''
            · have hgoal : |angle - d.2| < o := hbo' ▸ hc.2
              rw [ho] at hgoal
              exact hgoal
            · exact lt_of_lt_of_le (hbo' ▸ hc.2) (hpost p hp'' hpass)
      have hrec := ih (processed ++ [d]) (some (d.1, d.2, |angle - d.2|))
        |angle - d.2| hstep rfl
      simpa using hrec
    · rw [if_neg hc]
      have hstep : BestFor angle (processed ++ [d]) best := by
        cases best with
        | none =>
          intro p hp
          rcases List.mem_append.mp hp with hp' | hp'
          · exact hb p hp'
          · rcases List.mem_cons.mp hp' with rfl | hp''
            · intro hpass
              have hbo' : bo = (999:ℚ) := hbo
              apply hc
              refine ⟨hpass, ?_⟩
              rw [hbo']
              exact lt_of_le_of_lt hpass (orbLimit_lt_999 _)
            · simp at hp''
        | some t =>
          obtain ⟨n, i, o⟩ := t
          obtain ⟨ho, hpassni, pre, post, hdec, hpre, hpost⟩ := hb
          refine ⟨ho, hpassni, pre, post ++ [d], by simp [hdec], hpre, ?_⟩
          intro p hp hpass
          rcases List.mem_append.mp hp with hp' | hp'
          · exact hpost p hp' hpass
          · rcases List.mem_cons.mp hp' with rfl | hp''
            · have hbo' : bo = o := hbo
              have hnlt : ¬ |angle - p.2| < bo := fun hlt => hc ⟨hpass, hlt⟩
              rw [hbo'] at hnlt
              exact le_of_not_lt hnlt
            · simp at hp''
      have hrec := ih (processed ++ [d]) best bo hstep hbo
      simpa using hrec

lemma bestAspect_spec (angle : ℚ) : BestFor angle ASPECT_DEFS (bestAspect angle) := by
  have h := bestAux_spec angle ASPECT_DEFS [] none 999 (by intro d hd; simp at hd) rfl
  simpa [bestAspect] using h.1

lemma bestAspect_isSome_of_passes (angle : ℚ)
    (h : ∃ d ∈ ASPECT_DEFS, passes angle d) : bestAspect angle ≠ none := by
  intro hnone
  have hs := bestAspect_spec angle
  rw [hnone] at hs
  obtain ⟨d, hd, hpass⟩ := h
  exact hs d hd hpass

lemma bestAspect_orb (angle : ℚ) {n : String} {i o : ℚ}
    (h : bestAspect angle = some (n, i, o)) : o = |angle - i| := by
  have hs := bestAspect_spec angle
  rw [h] at hs
  exact hs.1

/-! ### Expected aspect from sign indices, and the emitted edge record -/

/-- The `diff_signs = abs(sign_idx1 - sign_idx2) % 12` table mapping a pair
of sign indices to the expected aspect name (`None` becomes `none`). -/
def expectedAspect (si1 si2 : ℤ) : Option String :=
  let d := (si1 - si2).natAbs % 12
  if d = 0 then some "conjunction"
  else if d = 2 ∨ d = 10 then some "sextile"
  else if d = 3 ∨ d = 9 then some "square"
  else if d = 4 ∨ d = 8 then some "trine"
  else if d = 6 then some "opposition"
  else none

/-- One entry of the `aspects` list built by `calculate_aspects` (the
presentation-only `positions` sub-dictionary is omitted; no claim uses it). -/
structure Aspect where
  body1 : String
  body2 : String
  aspectName : String
  family : Option String
  vibe : String
  ideal : ℚ
  angleMeasured : ℚ
  orbDeg : ℚ
  phase : String
  outOfSign : Bool
  importance : ℚ
deriving DecidableEq

/-- `faster, slower = (p1, p2) if abs(speeds[p1]) > abs(speeds[p2]) else (p2, p1)`:
the first component. -/
def faster (spd : String → ℚ) (p1 p2 : String) : String :=
  if |spd p1| > |spd p2| then p1 else p2

/-- The second component of the same assignment. -/
def slower (spd : String → ℚ) (p1 p2 : String) : String :=
  if |spd p1| > |spd p2| then p2 else p1

/-- The body of the pair loop of `calculate_aspects`: classify one ordered
pair, returning the aspect entry appended for it, if any. -/
def mkEdge (pos spd : String → ℚ) (p1 p2 : String) : Option Aspect :=
  match bestAspect (angularDistance (pos p1) (pos p2)) with
  | none => none
  | some (aspectName, ideal, orb) =>
    some
      { body1 := p1
        body2 := p2
        aspectName := aspectName
        family := aspectFamily aspectName
        vibe := aspectVibe aspectName
        ideal := ideal
        angleMeasured := round3 (angularDistance (pos p1) (pos p2))
        orbDeg := round3 orb
        phase :=
          if |angularDistance
                (pymod (pos (faster spd p1 p2) + spd (faster spd p1 p2)) 360)
                (pos (slower spd p1 p2)) - ideal| < orb
          then "applying" else "separating"
        outOfSign :=
          decide (expectedAspect ⌊pos p1 / 30⌋ ⌊pos p2 / 30⌋ ≠ some aspectName)
        importance :=
          round3 (min 1 (max 0 (1 - orb / orbLimit aspectName) *
            ((bodyWeight p1 + bodyWeight p2) / 2))) }

/-- The ordered pairs visited by `for i: for j in range(i+1, ...)`. -/
def pairsOf : List α → List (α × α)
  | [] => []
  | x :: xs => (xs.map fun y => (x, y)) ++ pairsOf xs

/-- `calculate_aspects` from the point where the `positions` and `speeds`
dictionaries have been built: `names` is `sorted(positions.keys())` and
`pos`/`spd` are the dictionary lookups. -/
def calcAspects (names : List String) (pos spd : String → ℚ) : List Aspect :=
  (pairsOf names).filterMap fun pr => mkEdge pos spd pr.1 pr.2

lemma mkEdge_none {pos spd : String → ℚ} {p1 p2 : String}
    (h : bestAspect (angularDistance (pos p1) (pos p2)) = none) :
    mkEdge pos spd p1 p2 = none := by
  unfold mkEdge
  rw [h]

lemma mkEdge_of_best {pos spd : String → ℚ} {p1 p2 : String} {n : String} {i o : ℚ}
    (h : bestAspect (angularDistance (pos p1) (pos p2)) = some (n, i, o)) :
    mkEdge pos spd p1 p2 = some
      { body1 := p1
        body2 := p2
        aspectName := n
        family := aspectFamily n
        vibe := aspectVibe n
        ideal := i
        angleMeasured := round3 (angularDistance (pos p1) (pos p2))
        orbDeg := round3 o
        phase :=
          if |angularDistance
                (pymod (pos (faster spd p1 p2) + spd (faster spd p1 p2)) 360)
                (pos (slower spd p1 p2)) - i| < o
          then "applying" else "separating"
        outOfSign := decide (expectedAspect ⌊pos p1 / 30⌋ ⌊pos p2 / 30⌋ ≠ some n)
        importance :=
          round3 (min 1 (max 0 (1 - o / orbLimit n) *
            ((bodyWeight p1 + bodyWeight p2) / 2))) } := by
  unfold mkEdge
  rw [h]

lemma mkEdge_shape {pos spd : String → ℚ} {p1 p2 : String} {e : Aspect}
    (h : mkEdge pos spd p1 p2 = some e) :
    ∃ n i o, bestAspect (angularDistance (pos p1) (pos p2)) = some (n, i, o) ∧
      e.body1 = p1 ∧ e.body2 = p2 ∧ e.aspectName = n ∧ e.ideal = i ∧
      e.orbDeg = round3 o ∧
      e.phase = (if |angularDistance
            (pymod (pos (faster spd p1 p2) + spd (faster spd p1 p2)) 360)
            (pos (slower spd p1 p2)) - i| < o
        then "applying" else "separating") ∧
      e.outOfSign = decide (expectedAspect ⌊pos p1 / 30⌋ ⌊pos p2 / 30⌋ ≠ some n) ∧
      e.importance = round3 (min 1 (max 0 (1 - o / orbLimit n) *
        ((bodyWeight p1 + bodyWeight p2) / 2))) := by
  cases hb : bestAspect (angularDistance (pos p1) (pos p2)) with
  | none => rw [mkEdge_none hb] at h; exact absurd h (by simp)
  | some t =>
    obtain ⟨n, i, o⟩ := t
    rw [mkEdge_of_best hb] at h
    obtain rfl : _ = e := Option.some_injective _ h
    exact ⟨n, i, o, rfl, rfl, rfl, rfl, rfl, rfl, rfl, rfl, rfl⟩

/-! ### Pattern detection: data model and helpers -/

/-- One entry of a pattern's `edges` list (`edge(aspect_name, a, b)`). -/
structure PatternEdge where
  body1 : String
  body2 : String
  aspectName : String
deriving DecidableEq

/-- A detected pattern.  `hasOutOfSign` models the `has_out_of_sign` key
(absent at creation time, which `pat.get` reads as falsy, so it is created
as `false`). -/
structure Pattern where
  patternType : String
  members : List String
  edges : List PatternEdge
  patternScore : ℚ
  hasOutOfSign : Bool
deriving DecidableEq

/-- `sorted([a, b])` for a two-element list. -/
def sortPair (a b : String) : String × String :=
  if strLe a b then (a, b) else (b, a)

/-- `edge(aspect_name, a, b)`: edge dict with bodies sorted. -/
def pedge (aspectName a b : String) : PatternEdge :=
  ⟨(sortPair a b).1, (sortPair a b).2, aspectName⟩

/-- `has_aspect(aspects, a, b, aspect_name)`.  The Python source compares
the two-element sets `{asp[body1], asp[body2]} == {a, b}`, which for the
distinct bodies handled here is the displayed disjunction. -/
def hasAspect (aspects : List Aspect) (a b name : String) : Bool :=
  aspects.any fun asp =>
    ((asp.body1 == a && asp.body2 == b) || (asp.body1 == b && asp.body2 == a)) &&
      asp.aspectName == name

lemma hasAspect_comm (aspects : List Aspect) (a b name : String) :
    hasAspect aspects a b name = hasAspect aspects b a name := by
  unfold hasAspect
  congr 1
  funext asp
  rw [Bool.or_comm]

lemma hasAspect_mem_left {aspects : List Aspect} {a b name : String}
    (h : hasAspect aspects a b name = true) :
    a ∈ aspects.map (·.body1) ++ aspects.map (·.body2) := by
  unfold hasAspect at h
  obtain ⟨asp, hmem, hcond⟩ := List.any_eq_true.mp h
  simp only [Bool.and_eq_true, Bool.or_eq_true, beq_iff_eq] at hcond
  rcases hcond.1 with ⟨h1, _⟩ | ⟨_, h2⟩
  · exact List.mem_append.mpr (Or.inl (List.mem_map.mpr ⟨asp, hmem, h1⟩))
  · exact List.mem_append.mpr (Or.inr (List.mem_map.mpr ⟨asp, hmem, h2⟩))

/-- `unique_fingerprint(members, pattern_type)`: the fingerprint is
`(pattern_type, tuple(sorted(members)))`, and every detector below stores
`sorted(members)` as the `members` field it fingerprints, so the
fingerprint is exactly the `(patternType, members)` pair. -/
def fingerprint (p : Pattern) : String × List String := (p.patternType, p.members)

/-- `bodies_from(aspects)`: the sorted set of bodies appearing in an edge. -/
def bodiesFrom (aspects : List Aspect) : List String :=
  sortStr ((aspects.map (·.body1) ++ aspects.map (·.body2)).dedup)

lemma bodiesFrom_sorted (aspects : List Aspect) :
    List.Sorted strLt (bodiesFrom aspects) :=
  sortStr_sorted_lt (List.nodup_dedup _)

lemma mem_bodiesFrom {aspects : List Aspect} {a b name : String}
    (h : hasAspect aspects a b name = true) :
    a ∈ bodiesFrom aspects ∧ b ∈ bodiesFrom aspects := by
  constructor
  · exact sortStr_mem.mpr (List.mem_dedup.mpr (hasAspect_mem_left h))
  · exact sortStr_mem.mpr
      (List.mem_dedup.mpr (hasAspect_mem_left ((hasAspect_comm aspects a b name) ▸ h)))

/-- The triples visited by `for i: for j > i: for k > j`. -/
def combos3 : List α → List (α × α × α)
  | [] => []
  | x :: xs => ((pairsOf xs).map fun p => (x, p.1, p.2)) ++ combos3 xs

/-- The quadruples visited by `for i: for j > i: for k > j: for m > k`. -/
def combos4 : List α → List (α × α × α × α)
  | [] => []
  | x :: xs => ((combos3 xs).map fun t => (x, t.1, t.2.1, t.2.2)) ++ combos4 xs

lemma mem_pairsOf {l : List String} (hs : List.Sorted strLt l) {a b : String}
    (ha : a ∈ l) (hb : b ∈ l) (hab : strLt a b) : (a, b) ∈ pairsOf l := by
  induction l with
  | nil => simp at ha
  | cons x xs ih =>
    obtain ⟨hx, hxs⟩ := List.sorted_cons.mp hs
    rcases List.mem_cons.mp ha with rfl | ha'
    · have hb' : b ∈ xs := by
        rcases List.mem_cons.mp hb with rfl | hb' 
        · exact absurd hab (strLt_irrefl b)
        · exact hb'
      exact List.mem_append.mpr (Or.inl (List.mem_map.mpr ⟨b, hb', rfl⟩))
    · have hb' : b ∈ xs := by
        rcases List.mem_cons.mp hb with rfl | hb'
        · exact absurd (strLt_trans (hx a ha') hab) (strLt_irrefl b)
        · exact hb'
      exact List.mem_append.mpr (Or.inr (ih hxs ha' hb'))

lemma mem_combos3 {l : List String} (hs : List.Sorted strLt l) {a b c : String}
    (ha : a ∈ l) (hb : b ∈ l) (hc : c ∈ l)
    (hab : strLt a b) (hbc : strLt b c) : (a, b, c) ∈ combos3 l := by
  induction l with
  | nil => simp at ha
  | cons x xs ih =>
    obtain ⟨hx, hxs⟩ := List.sorted_cons.mp hs
    rcases List.mem_cons.mp ha with rfl | ha'
    · have hb' : b ∈ xs := by
        rcases List.mem_cons.mp hb with rfl | hb'
        · exact absurd hab (strLt_irrefl b)
        · exact hb'
      have hc' : c ∈ xs := by
        rcases List.mem_cons.mp hc with rfl | hc'
        · exact absurd (strLt_trans hab hbc) (strLt_irrefl c)
        · exact hc'
      exact List.mem_append.mpr
        (Or.inl (List.mem_map.mpr ⟨(b, c), mem_pairsOf hxs hb' hc' hbc, rfl⟩))
    · have hb' : b ∈ xs := by
        rcases List.mem_cons.mp hb with rfl | hb'
        · exact absurd (strLt_trans (hx a ha') hab) (strLt_irrefl b)
        · exact hb'
      have hc' : c ∈ xs := by
        rcases List.mem_cons.mp hc with rfl | hc'
        · exact absurd (strLt_trans (strLt_trans (hx a ha') hab) hbc) (strLt_irrefl c)
        · exact hc'
      exact List.mem_append.mpr (Or.inr (ih hxs ha' hb' hc'))

lemma mem_combos4 {l : List String} (hs : List.Sorted strLt l) {a b c d : String}
    (ha : a ∈ l) (hb : b ∈ l) (hc : c ∈ l) (hd : d ∈ l)
    (hab : strLt a b) (hbc : strLt b c) (hcd : strLt c d) :
    (a, b, c, d) ∈ combos4 l := by
  induction l with
  | nil => simp at ha
  | cons x xs ih =>
    obtain ⟨hx, hxs⟩ := List.sorted_cons.mp hs
    rcases List.mem_cons.mp ha with rfl | ha'
    · have hb' : b ∈ xs := by
        rcases List.mem_cons.mp hb with rfl | hb'
        · exact absurd hab (strLt_irrefl b)
        · exact hb'
      have hc' : c ∈ xs := by
        rcases List.mem_cons.mp hc with rfl | hc'
        · exact absurd (strLt_trans hab hbc) (strLt_irrefl c)
        · exact hc'
      have hd' : d ∈ xs := by
        rcases List.mem_cons.mp hd with rfl | hd'
        · exact absurd (strLt_trans (strLt_trans hab hbc) hcd) (strLt_irrefl d)
        · exact hd'
      exact List.mem_append.mpr
        (Or.inl (List.mem_map.mpr ⟨(b, c, d), mem_combos3 hxs hb' hc' hd' hbc hcd, rfl⟩))
    · have hb' : b ∈ xs := by
        rcases List.mem_cons.mp hb with rfl | hb'
        · exact absurd (strLt_trans (hx a ha') hab) (strLt_irrefl b)
        · exact hb'
      have hc' : c ∈ xs := by
        rcases List.mem_cons.mp hc with rfl | hc'
        · exact absurd (strLt_trans (strLt_trans (hx a ha') hab) hbc) (strLt_irrefl c)
        · exact hc'
      have hd' : d ∈ xs := by
        rcases List.mem_cons.mp hd with rfl | hd'
        · exact absurd (strLt_trans (strLt_trans (strLt_trans (hx a ha') hab) hbc) hcd)
            (strLt_irrefl d)
        · exact hd'
      exact List.mem_append.mpr (Or.inr (ih hxs ha' hb' hc' hd'))

/-! ### The dedup-and-append loop shared by all six detectors -/

/-- One iteration of a detector loop: a candidate that failed its aspect
conditions contributes `none`; one that passed contributes `some pattern`
and is appended unless its fingerprint is already in `seen`. -/
def emitStep (acc : List Pattern × List (String × List String))
    (oc : Option Pattern) : List Pattern × List (String × List String) :=
  match oc with
  | none => acc
  | some p =>
    if fingerprint p ∈ acc.2 then acc else (acc.1 ++ [p], fingerprint p :: acc.2)

/-- Run a detector over its ordered candidate list, starting from
`patterns, seen = [], set()`. -/
def emitAll (cands : List (Option Pattern)) : List Pattern :=
  (cands.foldl emitStep ([], [])).1

/-- The loop invariant: `seen` holds exactly the fingerprints of the
emitted patterns, and those fingerprints are pairwise distinct. -/
def EmitInv (acc : List Pattern × List (String × List String)) : Prop :=
  (∀ k, k ∈ acc.2 ↔ k ∈ acc.1.map fingerprint) ∧ (acc.1.map fingerprint).Nodup

lemma emitStep_inv {acc : List Pattern × List (String × List String)}
    {oc : Option Pattern} (h : EmitInv acc) : EmitInv (emitStep acc oc) := by
  cases oc with
  | none => exact h
  | some p =>
    by_cases hmem : fingerprint p ∈ acc.2
    · simpa [emitStep, hmem] using h
    · have hnot : fingerprint p ∉ acc.1.map fingerprint := fun hc => hmem ((h.1 _).mpr hc)
      constructor
      · intro k
        simp only [emitStep, if_neg hmem, List.mem_cons, List.map_append, List.map_cons,
          List.map_nil, List.mem_append]
        rw [h.1 k]
        simp [or_comm]
      · simp only [emitStep, if_neg hmem, List.map_append, List.map_cons, List.map_nil]
        rw [List.nodup_append]
        refine ⟨h.2, List.nodup_singleton _, ?_⟩
        intro k hk1 hk2
        simp only [List.mem_singleton] at hk2
        exact hnot (hk2 ▸ hk1)

lemma foldl_emit_inv (cands : List (Option Pattern))
    (acc : List Pattern × List (String × List String)) (h : EmitInv acc) :
    EmitInv (cands.foldl emitStep acc) := by
  induction cands generalizing acc with
  | nil => exact h
  | cons oc rest ih => exact ih _ (emitStep_inv h)

lemma foldl_emit_mono (cands : List (Option Pattern))
    (acc : List Pattern × List (String × List String)) :
    (∀ p ∈ acc.1, p ∈ (cands.foldl emitStep acc).1) ∧
    (∀ k ∈ acc.2, k ∈ (cands.foldl emitStep acc).2) := by
  induction cands generalizing acc with
  | nil => exact ⟨fun _ h => h, fun _ h => h⟩
  | cons oc rest ih =>
    have hstep : (∀ p ∈ acc.1, p ∈ (emitStep acc oc).1) ∧
        (∀ k ∈ acc.2, k ∈ (emitStep acc oc).2) := by
      cases oc with
      | none => exact ⟨fun _ h => h, fun _ h => h⟩
      | some p =>
        by_cases hmem : fingerprint p ∈ acc.2
        · simp [emitStep, hmem]
        · constructor
          · intro q hq
            simp [emitStep, if_neg hmem, hq]
          · intro k hk
            simp [emitStep, if_neg hmem, hk]
    exact ⟨fun p hp => (ih (emitStep acc oc)).1 p (hstep.1 p hp),
      fun k hk => (ih (emitStep acc oc)).2 k (hstep.2 k hk)⟩

lemma foldl_emit_sub (cands : List (Option Pattern))
    (acc : List Pattern × List (String × List String)) :
    ∀ p ∈ (cands.foldl emitStep acc).1, p ∈ acc.1 ∨ some p ∈ cands := by
  induction cands generalizing acc with
  | nil => exact fun p hp => Or.inl hp
  | cons oc rest ih =>
    intro p hp
    rcases ih (emitStep acc oc) p hp with hin | hin
    · cases oc with
      | none => exact Or.inl hin
      | some q =>
        by_cases hmem : fingerprint q ∈ acc.2
        · rw [emitStep, if_pos hmem] at hin
          exact Or.inl hin
        · rw [emitStep, if_neg hmem] at hin
          rcases List.mem_append.mp hin with hin' | hin'
          · exact Or.inl hin'
          · simp only [List.mem_singleton] at hin'
            subst hin'
            exact Or.inr (List.mem_cons_self _ _)
    · exact Or.inr (List.mem_cons_of_mem _ hin)

lemma foldl_emit_seen (cands : List (Option Pattern))
    (acc : List Pattern × List (String × List String)) (k : String × List String)
    (h : ∃ oc ∈ cands, ∃ p, oc = some p ∧ fingerprint p = k) :
    k ∈ (cands.foldl emitStep acc).2 := by
  induction cands generalizing acc with
  | nil => simp at h
  | cons oc rest ih =>
    obtain ⟨oc', hoc', p, hp, hfp⟩ := h
    rcases List.mem_cons.mp hoc' with rfl | hmem
    · subst hp
      by_cases hseen : fingerprint p ∈ acc.2
      · have : k ∈ (emitStep acc (some p)).2 := by
          rw [emitStep, if_pos hseen]
          exact hfp ▸ hseen
        exact (foldl_emit_mono rest (emitStep acc (some p))).2 k this
      · have : k ∈ (emitStep acc (some p)).2 := by
          rw [emitStep, if_neg hseen]
          exact hfp ▸ List.mem_cons_self _ _
        exact (foldl_emit_mono rest (emitStep acc (some p))).2 k this
    · exact ih (emitStep acc oc) ⟨oc', hmem, p, hp, hfp⟩

lemma emitAll_nodup_fp (cands : List (Option Pattern)) :
    ((emitAll cands).map fingerprint).Nodup :=
  (foldl_emit_inv cands ([], []) ⟨by simp, by simp⟩).2

lemma emitAll_sub (cands : List (Option Pattern)) :
    ∀ p ∈ emitAll cands, some p ∈ cands := by
  intro p hp
  rcases foldl_emit_sub cands ([], []) p hp with h | h
  · simp at h
  · exact h

lemma emitAll_exists (cands : List (Option Pattern)) (k : String × List String)
    (h : ∃ oc ∈ cands, ∃ p, oc = some p ∧ fingerprint p = k) :
    ∃ q ∈ emitAll cands, fingerprint q = k := by
  have hseen := foldl_emit_seen cands ([], []) k h
  have hinv := foldl_emit_inv cands ([], []) ⟨by simp, by simp⟩
  have hmem := (hinv.1 k).mp hseen
  obtain ⟨q, hq, hfq⟩ := List.mem_map.mp hmem
  exact ⟨q, hq, hfq⟩

lemma countP_le_one_of_nodup_fp {l : List Pattern}
    (hnd : (l.map fingerprint).Nodup) (Q : Pattern → Bool)
    (hk : ∀ p ∈ l, ∀ q ∈ l, Q p = true → Q q = true → fingerprint p = fingerprint q) :
    l.countP Q ≤ 1 := by
  induction l with
  | nil => simp
  | cons a t ih =>
    simp only [List.map_cons, List.nodup_cons] at hnd
    rw [List.countP_cons]
    by_cases hQ : Q a = true
    · have hzero : t.countP Q = 0 := by
        rw [List.countP_eq_zero]
        intro x hx hQx
        exact hnd.1 (List.mem_map.mpr ⟨x, hx,
          (hk x (List.mem_cons_of_mem a hx) a (List.mem_cons_self a t) hQx hQ)⟩)
      simp [hzero, hQ]
    · have hle := ih hnd.2 (fun p hp q hq => hk p (List.mem_cons_of_mem a hp)
        q (List.mem_cons_of_mem a hq))
      simp [hQ]
      omega

lemma countP_eq_one_of_mem {l : List Pattern}
    (hnd : (l.map fingerprint).Nodup) (Q : Pattern → Bool)
    (hk : ∀ p ∈ l, ∀ q ∈ l, Q p = true → Q q = true → fingerprint p = fingerprint q)
    (hex : ∃ p ∈ l, Q p = true) : l.countP Q = 1 := by
  have h1 := countP_le_one_of_nodup_fp hnd Q hk
  have h2 : 0 < l.countP Q := List.countP_pos_iff.mpr hex
  omega

/-! ### The six motif detectors -/

/-- The candidate tested for one role-assignment `(A, B, C)` inside
`detect_yods`. -/
def yodCandidate (aspects : List Aspect) (t : String × String × String) :
    Option Pattern :=
  if hasAspect aspects t.1 t.2.1 "sextile" &&
     hasAspect aspects t.1 t.2.2 "quincunx" &&
     hasAspect aspects t.2.1 t.2.2 "quincunx" then
    some { patternType := "Yod"
           members := sortStr [t.1, t.2.1, t.2.2]
           edges := [pedge "sextile" t.1 t.2.1, pedge "quincunx" t.1 t.2.2,
                     pedge "quincunx" t.2.1 t.2.2]
           patternScore := 8/10
           hasOutOfSign := false }
  else none

/-- `detect_yods`: each triple is tried under the three role-assignments
`(a1, a2, apex), (a1, apex, a2), (a2, apex, a1)`. -/
def detectYods (aspects : List Aspect) : List Pattern :=
  emitAll ((combos3 (bodiesFrom aspects)).flatMap fun t =>
    [yodCandidate aspects (t.1, t.2.1, t.2.2),
     yodCandidate aspects (t.1, t.2.2, t.2.1),
     yodCandidate aspects (t.2.1, t.2.2, t.1)])

/-- The candidate tested for one role-assignment `(X, Y, Z)` inside
`detect_tsquares`. -/
def tsquareCandidate (aspects : List Aspect) (t : String × String × String) :
    Option Pattern :=
  if hasAspect aspects t.1 t.2.1 "opposition" &&
     hasAspect aspects t.1 t.2.2 "square" &&
     hasAspect aspects t.2.1 t.2.2 "square" then
    some { patternType := "T-Square"
           members := sortStr [t.1, t.2.1, t.2.2]
           edges := [pedge "opposition" t.1 t.2.1, pedge "square" t.1 t.2.2,
                     pedge "square" t.2.1 t.2.2]
           patternScore := 85/100
           hasOutOfSign := false }
  else none

/-- `detect_tsquares`: each triple is tried under the role-assignments
`(A, B, C), (A, C, B), (B, C, A)`. -/
def detectTSquares (aspects : List Aspect) : List Pattern :=
  emitAll ((combos3 (bodiesFrom aspects)).flatMap fun t =>
    [tsquareCandidate aspects (t.1, t.2.1, t.2.2),
     tsquareCandidate aspects (t.1, t.2.2, t.2.1),
     tsquareCandidate aspects (t.2.1, t.2.2, t.1)])

/-- The candidate tested for a triple inside `detect_grand_trines`. -/
def grandTrineCandidate (aspects : List Aspect) (t : String × String × String) :
    Option Pattern :=
  if hasAspect aspects t.1 t.2.1 "trine" &&
     hasAspect aspects t.1 t.2.2 "trine" &&
     hasAspect aspects t.2.1 t.2.2 "trine" then
    some { patternType := "Grand Trine"
           members := sortStr [t.1, t.2.1, t.2.2]
           edges := [pedge "trine" t.1 t.2.1, pedge "trine" t.1 t.2.2,
                     pedge "trine" t.2.1 t.2.2]
           patternScore := 8/10
           hasOutOfSign := false }
  else none

/-- `detect_grand_trines`: one candidate per triple. -/
def detectGrandTrines (aspects : List Aspect) : List Pattern :=
  emitAll ((combos3 (bodiesFrom aspects)).map (grandTrineCandidate aspects))

/-- One of the three `if` blocks in the `d` loop of `detect_kites`:
`opp` is the trine vertex opposed to `d`; `s1`, `s2` the two sextile
vertices. -/
def kiteOpt (aspects : List Aspect) (A B C d opp s1 s2 : String) : Option Pattern :=
  if hasAspect aspects d opp "opposition" &&
     hasAspect aspects d s1 "sextile" &&
     hasAspect aspects d s2 "sextile" then
    some { patternType := "Kite"
           members := sortStr [A, B, C, d]
           edges := [pedge "trine" A B, pedge "trine" A C, pedge "trine" B C,
                     pedge "opposition" d opp, pedge "sextile" d s1,
                     pedge "sextile" d s2]
           patternScore := 86/100
           hasOutOfSign := false }
  else none

/-- `detect_kites`: for each grand-trine triple `(A, B, C)`, every other
body `d` is tried as the kite tail against each of the three vertices. -/
def detectKites (aspects : List Aspect) : List Pattern :=
  let b := bodiesFrom aspects
  emitAll ((combos3 b).flatMap fun t =>
    if hasAspect aspects t.1 t.2.1 "trine" &&
       hasAspect aspects t.1 t.2.2 "trine" &&
       hasAspect aspects t.2.1 t.2.2 "trine" then
      b.flatMap fun d =>
        if d = t.1 ∨ d = t.2.1 ∨ d = t.2.2 then []
        else [kiteOpt aspects t.1 t.2.1 t.2.2 d t.1 t.2.1 t.2.2,
              kiteOpt aspects t.1 t.2.1 t.2.2 d t.2.1 t.1 t.2.2,
              kiteOpt aspects t.1 t.2.1 t.2.2 d t.2.2 t.1 t.2.1]
    else [])

/-- The single pairing tested for a quadruple `(A, B, C, D)` inside
`detect_mystic_rectangles`: oppositions `A-B` and `C-D`, sextiles on the
four cross-pairs. -/
def mrCandidate (aspects : List Aspect) (q : String × String × String × String) :
    Option Pattern :=
  if hasAspect aspects q.1 q.2.1 "opposition" &&
     hasAspect aspects q.2.2.1 q.2.2.2 "opposition" &&
     hasAspect aspects q.1 q.2.2.1 "sextile" &&
     hasAspect aspects q.1 q.2.2.2 "sextile" &&
     hasAspect aspects q.2.1 q.2.2.1 "sextile" &&
     hasAspect aspects q.2.1 q.2.2.2 "sextile" then
    some { patternType := "Mystic Rectangle"
           members := sortStr [q.1, q.2.1, q.2.2.1, q.2.2.2]
           edges := [pedge "opposition" q.1 q.2.1,
                     pedge "opposition" q.2.2.1 q.2.2.2,
                     pedge "sextile" q.1 q.2.2.1, pedge "sextile" q.1 q.2.2.2,
                     pedge "sextile" q.2.1 q.2.2.1, pedge "sextile" q.2.1 q.2.2.2]
           patternScore := 84/100
           hasOutOfSign := false }
  else none

/-- `detect_mystic_rectangles`: one candidate per sorted quadruple. -/
def detectMysticRectangles (aspects : List Aspect) : List Pattern :=
  emitAll ((combos4 (bodiesFrom aspects)).map (mrCandidate aspects))

/-- One pairing `(X, Y, U, V)` tested inside `detect_grand_crosses`:
oppositions `X-Y` and `U-V` with the square cycle `X-U-Y-V-X`. -/
def gcOpt (aspects : List Aspect) (ms : List String) (X Y U V : String) :
    Option Pattern :=
  if hasAspect aspects X Y "opposition" &&
     hasAspect aspects U V "opposition" &&
     hasAspect aspects X U "square" &&
     hasAspect aspects U Y "square" &&
     hasAspect aspects Y V "square" &&
     hasAspect aspects V X "square" then
    some { patternType := "Grand Cross"
           members := ms
           edges := [pedge "opposition" X Y, pedge "opposition" U V,
                     pedge "square" X U, pedge "square" U Y,
                     pedge "square" Y V, pedge "square" V X]
           patternScore := 88/100
           hasOutOfSign := false }
  else none

/-- `detect_grand_crosses`: each quadruple `(A, B, C, D)` is tried under the
pairings `(A,C,B,D), (A,B,C,D), (A,D,B,C), (B,C,A,D)` (the last duplicates
the third as an unordered pairing); together they cover all three ways of
splitting the four bodies into two pairs. -/
def detectGrandCrosses (aspects : List Aspect) : List Pattern :=
  emitAll ((combos4 (bodiesFrom aspects)).flatMap fun q =>
    [gcOpt aspects (sortStr [q.1, q.2.1, q.2.2.1, q.2.2.2]) q.1 q.2.2.1 q.2.1 q.2.2.2,
     gcOpt aspects (sortStr [q.1, q.2.1, q.2.2.1, q.2.2.2]) q.1 q.2.1 q.2.2.1 q.2.2.2,
     gcOpt aspects (sortStr [q.1, q.2.1, q.2.2.1, q.2.2.2]) q.1 q.2.2.2 q.2.1 q.2.2.1,
     gcOpt aspects (sortStr [q.1, q.2.1, q.2.2.1, q.2.2.2]) q.2.1 q.2.2.1 q.1 q.2.2.2])

/-- The pattern list assembled by the pipeline for one date, in order. -/
def detectAll (aspects : List Aspect) : List Pattern :=
  detectYods aspects ++ detectTSquares aspects ++ detectGrandTrines aspects ++
  detectKites aspects ++ detectMysticRectangles aspects ++ detectGrandCrosses aspects

lemma yodCandidate_some {aspects : List Aspect} {t : String × String × String}
    {p : Pattern} (h : yodCandidate aspects t = some p) :
    p.patternType = "Yod" := by
  unfold yodCandidate at h
  split_ifs at h
  · obtain rfl : _ = p := Option.some_injective _ h
    rfl

lemma tsquareCandidate_some {aspects : List Aspect} {t : String × String × String}
    {p : Pattern} (h : tsquareCandidate aspects t = some p) :
    p.patternType = "T-Square" := by
  unfold tsquareCandidate at h
  split_ifs at h
  · obtain rfl : _ = p := Option.some_injective _ h
    rfl

lemma grandTrineCandidate_some {aspects : List Aspect} {t : String × String × String}
    {p : Pattern} (h : grandTrineCandidate aspects t = some p) :
    p.patternType = "Grand Trine" := by
  unfold grandTrineCandidate at h
  split_ifs at h
  · obtain rfl : _ = p := Option.some_injective _ h
    rfl

lemma kiteOpt_some {aspects : List Aspect} {A B C d opp s1 s2 : String}
    {p : Pattern} (h : kiteOpt aspects A B C d opp s1 s2 = some p) :
    p.patternType = "Kite" := by
  unfold kiteOpt at h
  split_ifs at h
  · obtain rfl : _ = p := Option.some_injective _ h
    rfl

lemma mrCandidate_some {aspects : List Aspect} {q : String × String × String × String}
    {p : Pattern} (h : mrCandidate aspects q = some p) :
    p.patternType = "Mystic Rectangle" ∧
    p.members = sortStr [q.1, q.2.1, q.2.2.1, q.2.2.2] := by
  unfold mrCandidate at h
  split_ifs at h
  · obtain rfl : _ = p := Option.some_injective _ h
    exact ⟨rfl, rfl⟩

lemma gcOpt_some {aspects : List Aspect} {ms : List String} {X Y U V : String}
    {p : Pattern} (h : gcOpt aspects ms X Y U V = some p) :
    p.patternType = "Grand Cross" ∧ p.members = ms := by
  unfold gcOpt at h
  split_ifs at h
  · obtain rfl : _ = p := Option.some_injective _ h
    exact ⟨rfl, rfl⟩

lemma detectYods_type {aspects : List Aspect} {p : Pattern}
    (h : p ∈ detectYods aspects) : p.patternType = "Yod" := by
  have hc := emitAll_sub _ p h
  obtain ⟨t, _, hmem⟩ := List.mem_flatMap.mp hc
  simp only [List.mem_cons, List.not_mem_nil, or_false] at hmem
  rcases hmem with hx | hx | hx <;> exact yodCandidate_some hx.symm

lemma detectTSquares_type {aspects : List Aspect} {p : Pattern}
    (h : p ∈ detectTSquares aspects) : p.patternType = "T-Square" := by
  have hc := emitAll_sub _ p h
  obtain ⟨t, _, hmem⟩ := List.mem_flatMap.mp hc
  simp only [List.mem_cons, List.not_mem_nil, or_false] at hmem
  rcases hmem with hx | hx | hx <;> exact tsquareCandidate_some hx.symm

lemma detectGrandTrines_type {aspects : List Aspect} {p : Pattern}
    (h : p ∈ detectGrandTrines aspects) : p.patternType = "Grand Trine" := by
  have hc := emitAll_sub _ p h
  obtain ⟨t, _, hmem⟩ := List.mem_map.mp hc
  exact grandTrineCandidate_some hmem

lemma detectKites_type {aspects : List Aspect} {p : Pattern}
    (h : p ∈ detectKites aspects) : p.patternType = "Kite" := by
  have hc := emitAll_sub _ p h
  obtain ⟨t, _, hmem⟩ := List.mem_flatMap.mp hc
  split_ifs at hmem
  · obtain ⟨d, _, hmem'⟩ := List.mem_flatMap.mp hmem
    split_ifs at hmem'
    · simp at hmem'
    · simp only [List.mem_cons, List.not_mem_nil, or_false] at hmem'
      rcases hmem' with hx | hx | hx <;> exact kiteOpt_some hx.symm
  · simp at hmem

lemma detectMysticRectangles_type {aspects : List Aspect} {p : Pattern}
    (h : p ∈ detectMysticRectangles aspects) : p.patternType = "Mystic Rectangle" := by
  have hc := emitAll_sub _ p h
  obtain ⟨t, _, hmem⟩ := List.mem_map.mp hc
  exact (mrCandidate_some hmem).1

lemma detectGrandCrosses_type {aspects : List Aspect} {p : Pattern}
    (h : p ∈ detectGrandCrosses aspects) : p.patternType = "Grand Cross" := by
  have hc := emitAll_sub _ p h
  obtain ⟨t, _, hmem⟩ := List.mem_flatMap.mp hc
  simp only [List.mem_cons, List.not_mem_nil, or_false] at hmem
  rcases hmem with hx | hx | hx | hx <;> exact (gcOpt_some hx.symm).1

/-! ### Pattern strength scoring (`add_pattern_strength_scores`) -/

/-- The key `(tuple(sorted([body1, body2])), aspect_name)` of an aspect
entry, as built by `_edge_lookup_by_pair`. -/
def aspKey (asp : Aspect) : (String × String) × String :=
  (sortPair asp.body1 asp.body2, asp.aspectName)

/-- `_edge_lookup_by_pair(aspects)[key]`, with the dict built by iterating
`aspects` in order (later entries overwrite earlier ones), then
`lookup.get(key)` (`none` when absent). -/
def lookupAspect (aspects : List Aspect) (k : (String × String) × String) :
    Option Aspect :=
  aspects.foldl (fun acc asp => if aspKey asp = k then some asp else acc) none

lemma lookupAspect_key_aux {k : (String × String) × String} {asp : Aspect} :
    ∀ (aspects : List Aspect) (acc : Option Aspect),
      (∀ a, acc = some a → aspKey a = k) →
      (aspects.foldl (fun acc asp => if aspKey asp = k then some asp else acc) acc
        = some asp) → aspKey asp = k := by
  intro aspects
  induction aspects with
  | nil =>
    intro acc hacc hfold
    exact hacc asp hfold
  | cons x xs ih =>
    intro acc hacc hfold
    rw [List.foldl_cons] at hfold
    by_cases hx : aspKey x = k
    · refine ih (some x) ?_ (by simpa [hx] using hfold)
      intro a ha
      obtain rfl : x = a := Option.some_injective _ ha
      exact hx
    · exact ih acc hacc (by simpa [hx] using hfold)

lemma lookupAspect_key {aspects : List Aspect} {k : (String × String) × String}
    {asp : Aspect} (h : lookupAspect aspects k = some asp) : aspKey asp = k :=
  lookupAspect_key_aux aspects none (by simp) h

/-- `tightness_for_edge(e)`: recomputed tightness of a pattern edge from
the aspect list; a missing lookup contributes `0.0`. -/
def tightnessForEdge (aspects : List Aspect) (e : PatternEdge) : ℚ :=
  match lookupAspect aspects ((sortPair e.body1 e.body2), e.aspectName) with
  | none => 0
  | some asp => max 0 (1 - asp.orbDeg / orbLimit asp.aspectName)

/-- `_has_luminary(members)`. -/
def hasLuminary (members : List String) : Bool :=
  members.any fun x => lowerStr x == "sun" || lowerStr x == "moon"

/-- The score accumulated by `add_pattern_strength_scores` for a pattern
with a non-empty edge list, before the final clamp and rounding. -/
def preStrengthScore (aspects : List Aspect) (pat : Pattern) : ℚ :=
  (pat.edges.map (tightnessForEdge aspects)).sum /
    ((pat.edges.map (tightnessForEdge aspects)).length : ℚ) -
    (if pat.hasOutOfSign then 1/10 else 0) +
    (if hasLuminary pat.members then 1/20 else 0)

/-- The `pattern_strength_score` value stored for a pattern: `0.0` for an
empty (or missing) edge list, otherwise the clamped score rounded to three
decimal places. -/
def patternStrengthScore (aspects : List Aspect) (pat : Pattern) : ℚ :=
  if pat.edges = [] then 0
  else round3 (max 0 (min 1 (preStrengthScore aspects pat)))

/-! ### Definitions written from the claims, for comparison with the code -/

/-- Modelled from claim C5's wording: the clamp to `[0,1]` of the average
edge tightness minus the out-of-sign penalty plus the luminary bonus, with
no rounding. -/
def specStrengthClamped (aspects : List Aspect) (pat : Pattern) : ℚ :=
  max 0 (min 1
    ((pat.edges.map (tightnessForEdge aspects)).sum / (pat.edges.length : ℚ) -
      (if pat.hasOutOfSign then 1/10 else 0) +
      (if hasLuminary pat.members then 1/20 else 0)))

/-- Modelled from claim C2's wording: extrapolate the faster body (larger
absolute speed) forward by its speed times one half-day, recompute the
separation against the slower body's longitude, and compare the deviation
from the ideal angle with the original orb. -/
def halfDayApplying (pos spd : String → ℚ) (p1 p2 : String) (ideal orb : ℚ) : Bool :=
  decide (|angularDistance
      (pymod (pos (faster spd p1 p2) + spd (faster spd p1 p2) * (1/2)) 360)
      (pos (slower spd p1 p2)) - ideal| < orb)

/-- Modelled from the amended claim C2: the same computation with the
faster body advanced by its (degrees-per-day) speed times one full day,
which is what the code's `positions[faster] + speeds[faster]` does. -/
def fullDayApplying (pos spd : String → ℚ) (p1 p2 : String) (ideal orb : ℚ) : Bool :=
  decide (|angularDistance
      (pymod (pos (faster spd p1 p2) + spd (faster spd p1 p2) * 1) 360)
      (pos (slower spd p1 p2)) - ideal| < orb)

/-- Modelled from claim C6's wording: the expected-aspect table as a
function of the absolute sign-index difference. -/
def claimExpected (d : ℕ) : Option String :=
  if d = 0 then some "conjunction"
  else if d = 2 ∨ d = 10 then some "sextile"
  else if d = 3 ∨ d = 9 then some "square"
  else if d = 4 ∨ d = 8 then some "trine"
  else if d = 6 then some "opposition"
  else none

/-- The Boolean test used to state per-pair facts about `calcAspects`:
does this aspect entry concern the unordered pair `{a, b}`. -/
def matchPair (a b : String) (e : Aspect) : Bool :=
  (e.body1 == a && e.body2 == b) || (e.body1 == b && e.body2 == a)

/-! ### Per-pair facts about the classifier loop -/

lemma pairsOf_elems {l : List α} {p : α × α} (h : p ∈ pairsOf l) :
    p.1 ∈ l ∧ p.2 ∈ l := by
  induction l with
  | nil => simp [pairsOf] at h
  | cons x xs ih =>
    simp only [pairsOf, List.mem_append, List.mem_map] at h
    rcases h with ⟨y, hy, rfl⟩ | h'
    · exact ⟨List.mem_cons_self _ _, List.mem_cons_of_mem _ hy⟩
    · obtain ⟨h1, h2⟩ := ih h'
      exact ⟨List.mem_cons_of_mem _ h1, List.mem_cons_of_mem _ h2⟩

lemma pairsOf_lt {l : List String} (hs : List.Sorted strLt l) {p : String × String}
    (h : p ∈ pairsOf l) : strLt p.1 p.2 := by
  induction l with
  | nil => simp [pairsOf] at h
  | cons x xs ih =>
    obtain ⟨hx, hxs⟩ := List.sorted_cons.mp hs
    simp only [pairsOf, List.mem_append, List.mem_map] at h
    rcases h with ⟨y, hy, rfl⟩ | h'
    · exact hx y hy
    · exact ih hxs h'

lemma pairsOf_nodup {l : List String} (hn : l.Nodup) : (pairsOf l).Nodup := by
  induction l with
  | nil => simp [pairsOf]
  | cons x xs ih =>
    rw [List.nodup_cons] at hn
    simp only [pairsOf]
    apply List.Nodup.append
    · refine List.Nodup.map ?_ hn.2
      intro u v huv
      simpa using huv
    · exact ih hn.2
    · intro p hp1 hp2
      obtain ⟨y, _, rfl⟩ := List.mem_map.mp hp1
      exact hn.1 (pairsOf_elems hp2).1

lemma countP_filterMap (f : α → Option β) (p : β → Bool) (l : List α) :
    (l.filterMap f).countP p = l.countP fun a => ((f a).map p).getD false := by
  induction l with
  | nil => rfl
  | cons a t ih =>
    cases h : f a with
    | none => simp [List.filterMap_cons, h, List.countP_cons, ih]
    | some b => simp [List.filterMap_cons, h, List.countP_cons, ih]

lemma sorted_nodup {l : List String} (hs : List.Sorted strLt l) : l.Nodup :=
  hs.imp strLt_ne

/-! ### Claim theorems -/

/-- Claim C10: for every pair of real longitudes, the computed angular
separation (normalize the difference mod 360 into `[0,360)`, then fold
values above 180 to 360 minus the value) lies in the closed interval
`[0, 180]`. -/
theorem C10_separation_range (a b : ℚ) :
    0 ≤ angularDistance a b ∧ angularDistance a b ≤ 180 :=
  ⟨norm180_nonneg _, norm180_le_180 _⟩

lemma countP_beq_le_one {l : List (String × String)} (hn : l.Nodup)
    (v : String × String) : l.countP (fun pr => pr == v) ≤ 1 := by
  induction l with
  | nil => simp
  | cons x xs ih =>
    rw [List.nodup_cons] at hn
    rw [List.countP_cons]
    by_cases hx : (x == v) = true
    · have hv : x = v := by simpa using hx
      have hzero : xs.countP (fun pr => pr == v) = 0 := by
        rw [List.countP_eq_zero]
        intro p hp hpv
        have hpv' : p = v := by simpa using hpv
        exact hn.1 (by rw [hv, ← hpv']; exact hp)
      simp [hzero, hx]
    · have hle := ih hn.2
      rw [if_neg hx]
      omega

/-- Claim C4: for every positions/speeds input and every unordered pair of
distinct bodies (written in its sorted orientation), the classifier emits at
most one aspect edge for that pair; when at least one aspect definition has
orb within its limit, exactly one edge is emitted and it carries the
definition with minimum orb among those that pass, ties going to the
earlier definition in the fixed order (the `BestFor` characterization);
when no definition passes, no edge is emitted for that pair. -/
theorem C4_classifier (names : List String) (pos spd : String → ℚ)
    (hs : List.Sorted strLt names) (a b : String)
    (ha : a ∈ names) (hb : b ∈ names) (hab : strLt a b) :
    ((calcAspects names pos spd).countP (matchPair a b) ≤ 1) ∧
    ((∃ d ∈ ASPECT_DEFS, passes (angularDistance (pos a) (pos b)) d) →
      ∃ e ∈ calcAspects names pos spd, matchPair a b e = true ∧
        (calcAspects names pos spd).countP (matchPair a b) = 1 ∧
        BestFor (angularDistance (pos a) (pos b)) ASPECT_DEFS
          (some (e.aspectName, e.ideal,
            |angularDistance (pos a) (pos b) - e.ideal|))) ∧
    ((∀ d ∈ ASPECT_DEFS, ¬ passes (angularDistance (pos a) (pos b)) d) →
      (calcAspects names pos spd).countP (matchPair a b) = 0) := by
  have hcnt : (calcAspects names pos spd).countP (matchPair a b) =
      (pairsOf names).countP
        fun pr => ((mkEdge pos spd pr.1 pr.2).map (matchPair a b)).getD false :=
    countP_filterMap _ _ _
  have honly : ∀ pr ∈ pairsOf names,
      (((mkEdge pos spd pr.1 pr.2).map (matchPair a b)).getD false) = true →
      pr = (a, b) := by
    intro pr hpr hg
    cases hme : mkEdge pos spd pr.1 pr.2 with
    | none => rw [hme] at hg; simp at hg
    | some e =>
      rw [hme] at hg
      simp only [Option.map, Option.getD] at hg
      obtain ⟨n, i, o, _, hb1, hb2, _⟩ := mkEdge_shape hme
      unfold matchPair at hg
      rw [hb1, hb2] at hg
      simp only [Bool.or_eq_true, Bool.and_eq_true, beq_iff_eq] at hg
      have hlt := pairsOf_lt hs hpr
      obtain ⟨pr1, pr2⟩ := pr
      rcases hg with ⟨h1, h2⟩ | ⟨h1, h2⟩
      · simp only at h1 h2
        rw [h1, h2]
      · simp only at h1 h2 hlt
        rw [h1, h2] at hlt
        exact absurd hlt (strLt_asymm hab)
  have hle : (calcAspects names pos spd).countP (matchPair a b) ≤ 1 := by
    rw [hcnt]
    have hmono : (pairsOf names).countP
        (fun pr => ((mkEdge pos spd pr.1 pr.2).map (matchPair a b)).getD false) ≤
        (pairsOf names).countP fun pr => pr == (a, b) := by
      apply List.countP_mono_left
      intro pr hpr hg
      have hpr' := honly pr hpr hg
      rw [hpr']
      exact beq_self_eq_true _
    exact le_trans hmono (countP_beq_le_one (pairsOf_nodup (sorted_nodup hs)) _)
  refine ⟨hle, ?_, ?_⟩
  · intro hpass
    have hbne := bestAspect_isSome_of_passes _ hpass
    cases hbb : bestAspect (angularDistance (pos a) (pos b)) with
    | none => exact absurd hbb hbne
    | some t =>
      obtain ⟨n, i, o⟩ := t
      have hme := @mkEdge_of_best pos spd a b n i o hbb
      have hmem : _ ∈ calcAspects names pos spd :=
        List.mem_filterMap.mpr ⟨(a, b), mem_pairsOf hs ha hb hab, hme⟩
      have hspec := bestAspect_spec (angularDistance (pos a) (pos b))
      rw [hbb] at hspec
      have ho : o = |angularDistance (pos a) (pos b) - i| := hspec.1
      refine ⟨_, hmem, by simp [matchPair], ?_, ?_⟩
      · have hpos : 0 < (calcAspects names pos spd).countP (matchPair a b) :=
          List.countP_pos_iff.mpr ⟨_, hmem, by simp [matchPair]⟩
        omega
      · show BestFor (angularDistance (pos a) (pos b)) ASPECT_DEFS
          (some (n, i, |angularDistance (pos a) (pos b) - i|))
        rw [← ho]
        exact hspec
  · intro hnone
    have hbnone : bestAspect (angularDistance (pos a) (pos b)) = none := by
      cases hbb : bestAspect (angularDistance (pos a) (pos b)) with
      | none => rfl
      | some t =>
        obtain ⟨n, i, o⟩ := t
        have hspec := bestAspect_spec (angularDistance (pos a) (pos b))
        rw [hbb] at hspec
        obtain ⟨_, hpassni, pre, post, hdec, _, _⟩ := hspec
        exact absurd hpassni (hnone (n, i) (by rw [hdec]; simp))
    rw [hcnt, List.countP_eq_zero]
    intro pr hpr hg
    have hpr' := honly pr hpr hg
    subst hpr'
    rw [mkEdge_none hbnone] at hg
    simp at hg

/-- Claim C6: the expected aspect name derived from the two bodies' sign
indices follows the fixed table (difference 0 gives conjunction, 2 or 10
sextile, 3 or 9 square, 4 or 8 trine, 6 opposition, any other value none)
for all 144 sign-index pairs, and every emitted edge has `out_of_sign` true
exactly when the selected aspect name differs from this expected value
(including when the expected value is none). -/
theorem C6_out_of_sign :
    (∀ i j : Fin 12, expectedAspect (i : ℤ) (j : ℤ) =
      claimExpected (((i : ℤ) - (j : ℤ)).natAbs)) ∧
    (∀ (pos spd : String → ℚ) (p1 p2 : String) (e : Aspect),
      mkEdge pos spd p1 p2 = some e →
      (e.outOfSign = true ↔
        expectedAspect ⌊pos p1 / 30⌋ ⌊pos p2 / 30⌋ ≠ some e.aspectName)) := by
  constructor
  · decide
  · intro pos spd p1 p2 e h
    obtain ⟨n, i, o, _, _, _, hn, _, _, _, hoos, _⟩ := mkEdge_shape h
    rw [hoos, hn]
    simp

/-- Claim C9: every emitted aspect edge has `importance_score` in `[0, 1]`,
and every scored pattern has `pattern_strength_score` in `[0, 1]`. -/
theorem C9_bounds :
    (∀ (pos spd : String → ℚ) (p1 p2 : String) (e : Aspect),
      mkEdge pos spd p1 p2 = some e → 0 ≤ e.importance ∧ e.importance ≤ 1) ∧
    (∀ (aspects : List Aspect) (pat : Pattern),
      0 ≤ patternStrengthScore aspects pat ∧
        patternStrengthScore aspects pat ≤ 1) := by
  constructor
  · intro pos spd p1 p2 e h
    obtain ⟨n, i, o, _, _, _, _, _, _, _, _, himp⟩ := mkEdge_shape h
    rw [himp]
    have hw : 0 ≤ (bodyWeight p1 + bodyWeight p2) / 2 :=
      div_nonneg (add_nonneg (bodyWeight_nonneg p1) (bodyWeight_nonneg p2))
        (by norm_num)
    have hprod : 0 ≤ max 0 (1 - o / orbLimit n) * ((bodyWeight p1 + bodyWeight p2) / 2) :=
      mul_nonneg (le_max_left 0 _) hw
    constructor
    · exact round3_nonneg (le_min (by norm_num) hprod)
    · exact round3_le_one (min_le_left 1 _)
  · intro aspects pat
    unfold patternStrengthScore
    split_ifs with h
    · norm_num
    · constructor
      · exact round3_nonneg (le_max_left 0 _)
      · exact round3_le_one (max_le (by norm_num) (min_le_left 1 _))

/-! ### Concrete inputs used by the witnesses and counterexamples -/

/-- Positions for the two-body phase example: body `a` at 0°, body `b` at 91°. -/
def posC2 : String → ℚ := fun s => if s = "b" then 91 else 0

/-- Speeds for the phase example: body `b` retrogrades at 3°/day. -/
def spdC2 : String → ℚ := fun s => if s = "b" then -3 else 0

lemma angC2 : angularDistance (posC2 "a") (posC2 "b") = 91 := by
  norm_num +decide [posC2, angularDistance, norm180, pymod, abs_of_nonpos,
    abs_of_nonneg]

lemma bestC2 : bestAspect (angularDistance (posC2 "a") (posC2 "b")) =
    some ("square", 90, 1) := by
  rw [angC2]
  norm_num +decide [bestAspect, bestAux, ASPECT_DEFS, orbLimit, abs_of_nonpos,
    abs_of_nonneg]

/-- Placeholder record used only as the default of `Option.getD`. -/
def dummyAspect : Aspect :=
  { body1 := "", body2 := "", aspectName := "", family := none, vibe := "",
    ideal := 0, angleMeasured := 0, orbDeg := 0, phase := "", outOfSign := false,
    importance := 0 }

/-- The edge emitted for the phase example. -/
def eC2 : Aspect := (mkEdge posC2 spdC2 "a" "b").getD dummyAspect

lemma hmeC2 : mkEdge posC2 spdC2 "a" "b" = some eC2 := by
  unfold eC2
  rw [mkEdge_of_best bestC2]
  rfl

lemma eC2_phase : eC2.phase = "separating" := by
  unfold eC2
  rw [mkEdge_of_best bestC2]
  show (if |angularDistance
      (pymod (posC2 (faster spdC2 "a" "b") + spdC2 (faster spdC2 "a" "b")) 360)
      (posC2 (slower spdC2 "a" "b")) - 90| < 1
    then "applying" else "separating") = "separating"
  norm_num +decide [faster, slower, posC2, spdC2, angularDistance, norm180,
    pymod, abs_of_nonpos, abs_of_nonneg]

/-- Claim C2 is false as stated: with body `a` at 0° (speed 0) and body `b`
at 91° (speed −3°/day), the emitted square edge (ideal 90, orb 1) is
labelled `separating` by the code, yet the claim's half-day extrapolation
criterion says `applying` (deviation 0.5 < orb 1). -/
theorem C2_counterexample :
    eC2.phase = "separating" ∧
    halfDayApplying posC2 spdC2 "a" "b" 90 1 = true := by
  constructor
  · exact eC2_phase
  · unfold halfDayApplying
    norm_num +decide [faster, slower, posC2, spdC2, angularDistance, norm180,
      pymod, abs_of_nonpos, abs_of_nonneg]

/-- Claim C2 (amended): the phase of every emitted edge is determined by the
claim's procedure with the faster body extrapolated by its speed times one
full day (not one half-day): phase is `applying` exactly when the deviation
of the recomputed separation from the ideal angle is strictly below the
original orb. -/
theorem C2_phase_rule (pos spd : String → ℚ) (p1 p2 : String) (e : Aspect)
    (n : String) (i o : ℚ)
    (hb : bestAspect (angularDistance (pos p1) (pos p2)) = some (n, i, o))
    (hme : mkEdge pos spd p1 p2 = some e) :
    e.phase = if fullDayApplying pos spd p1 p2 i o then "applying"
      else "separating" := by
  rw [mkEdge_of_best hb] at hme
  obtain rfl : _ = e := Option.some_injective _ hme
  show (if |angularDistance
      (pymod (pos (faster spd p1 p2) + spd (faster spd p1 p2)) 360)
      (pos (slower spd p1 p2)) - i| < o
    then "applying" else "separating") = _
  unfold fullDayApplying
  rw [mul_one]
  by_cases hP : |angularDistance
      (pymod (pos (faster spd p1 p2) + spd (faster spd p1 p2)) 360)
      (pos (slower spd p1 p2)) - i| < o
  · rw [if_pos hP, if_pos (by simpa using hP)]
  · rw [if_neg hP, if_neg (by simpa using hP)]

/-- Witness for the amended claim C2 at the concrete phase example. -/
theorem C2_phase_rule_witness :
    eC2.phase = if fullDayApplying posC2 spdC2 "a" "b" 90 1 then "applying"
      else "separating" :=
  C2_phase_rule posC2 spdC2 "a" "b" eC2 "square" 90 1 bestC2 hmeC2

/-- Positions for the exact-square example: body `a` at 0°, body `b` at 90°. -/
def posC9 : String → ℚ := fun s => if s = "b" then 90 else 0

/-- Speeds for the exact-square example: both bodies static. -/
def spdC9 : String → ℚ := fun _ => 0

lemma bestC9 : bestAspect (angularDistance (posC9 "a") (posC9 "b")) =
    some ("square", 90, 0) := by
  have hang : angularDistance (posC9 "a") (posC9 "b") = 90 := by
    norm_num +decide [posC9, angularDistance, norm180, pymod, abs_of_nonpos,
      abs_of_nonneg]
  rw [hang]
  norm_num +decide [bestAspect, bestAux, ASPECT_DEFS, orbLimit, abs_of_nonpos,
    abs_of_nonneg]

/-- The edge emitted for the exact-square example. -/
def eC9 : Aspect := (mkEdge posC9 spdC9 "a" "b").getD dummyAspect

lemma hmeC9 : mkEdge posC9 spdC9 "a" "b" = some eC9 := by
  unfold eC9
  rw [mkEdge_of_best bestC9]
  rfl

/-- An empty pattern used as the scored-pattern instance of the witness. -/
def patEmpty : Pattern :=
  { patternType := "Grand Trine", members := [], edges := [],
    patternScore := 8/10, hasOutOfSign := false }

/-- Witness for claim C9 at the exact-square example. -/
theorem C9_bounds_witness :
    (0 ≤ eC9.importance ∧ eC9.importance ≤ 1) ∧
    (0 ≤ patternStrengthScore [] patEmpty ∧
      patternStrengthScore [] patEmpty ≤ 1) :=
  ⟨C9_bounds.1 posC9 spdC9 "a" "b" eC9 hmeC9, C9_bounds.2 [] patEmpty⟩

/-- Witness for claim C6 at the exact-square example. -/
theorem C6_out_of_sign_witness :
    eC9.outOfSign = true ↔
      expectedAspect ⌊posC9 "a" / 30⌋ ⌊posC9 "b" / 30⌋ ≠ some eC9.aspectName :=
  C6_out_of_sign.2 posC9 spdC9 "a" "b" eC9 hmeC9

/-- An aspect entry with the given bodies, name and orb; the remaining
fields are irrelevant to detection and scoring. -/
def mkAsp (b1 b2 nm : String) (orb : ℚ) : Aspect :=
  { body1 := b1, body2 := b2, aspectName := nm, family := none,
    vibe := "neutral", ideal := 0, angleMeasured := 0, orbDeg := orb,
    phase := "separating", outOfSign := false, importance := 0 }

/-- Claim C5 (amended): for a pattern with a non-empty edge list the stored
`pattern_strength_score` is the claim's clamped value rounded to three
decimal places (the code applies `round(score, 3)` before storing), and a
pattern with no edges scores 0. -/
theorem C5_strength_formula (aspects : List Aspect) (pat : Pattern) :
    patternStrengthScore aspects pat =
      if pat.edges = [] then 0
      else round3 (specStrengthClamped aspects pat) := by
  unfold patternStrengthScore preStrengthScore specStrengthClamped
  by_cases h : pat.edges = []
  · simp [h]
  · simp [h, List.length_map]

/-- The aspect list of the C5 counterexample: one quincunx with orb 1. -/
def aspC5 : List Aspect := [mkAsp "a" "b" "quincunx" 1]

/-- The pattern of the C5 counterexample: a single quincunx edge. -/
def patC5 : Pattern :=
  { patternType := "Yod", members := ["a", "b"],
    edges := [⟨"a", "b", "quincunx"⟩], patternScore := 8/10,
    hasOutOfSign := false }

/-- Claim C5 is false as stated: with a single quincunx edge of orb 1
(orb limit 3) the clamp of the average tightness is 2/3, but the stored
score is the rounded value 0.667. -/
theorem C5_counterexample :
    patternStrengthScore aspC5 patC5 ≠ specStrengthClamped aspC5 patC5 ∧
    patternStrengthScore aspC5 patC5 = 667/1000 ∧
    specStrengthClamped aspC5 patC5 = 2/3 := by
  refine ⟨?_, ?_, ?_⟩
  · norm_num +decide [patternStrengthScore, preStrengthScore,
      specStrengthClamped, patC5, aspC5, tightnessForEdge, lookupAspect,
      aspKey, sortPair, mkAsp, hasLuminary, lowerStr, lowerChar, orbLimit,
      round3, rhe, strLe, strLt, charsLt]
  · norm_num +decide [patternStrengthScore, preStrengthScore, patC5, aspC5,
      tightnessForEdge, lookupAspect, aspKey, sortPair, mkAsp, hasLuminary,
      lowerStr, lowerChar, orbLimit, round3, rhe, strLe, strLt, charsLt]
  · norm_num +decide [specStrengthClamped, patC5, aspC5, tightnessForEdge,
      lookupAspect, aspKey, sortPair, mkAsp, hasLuminary, lowerStr, lowerChar,
      orbLimit, strLe, strLt, charsLt]

/-- Claim C3 (amended): increasing the orb of one contributing edge (found
in the aspect set, staying within its orb limit) while all other edges keep
their tightness strictly decreases the pre-clamp, pre-rounding strength
score; the stored (clamped and rounded) `pattern_strength_score` is
non-increasing but need not strictly decrease. -/
theorem C3_strength_monotone (A1 A2 : List Aspect) (pat : Pattern)
    (e : PatternEdge) (he : e ∈ pat.edges) (a1 a2 : Aspect)
    (h1 : lookupAspect A1 ((sortPair e.body1 e.body2), e.aspectName) = some a1)
    (h2 : lookupAspect A2 ((sortPair e.body1 e.body2), e.aspectName) = some a2)
    (h0 : 0 ≤ a1.orbDeg) (hlt : a1.orbDeg < a2.orbDeg)
    (hlim : a2.orbDeg ≤ orbLimit e.aspectName)
    (hoth : ∀ e2 ∈ pat.edges, e2 ≠ e →
      tightnessForEdge A2 e2 = tightnessForEdge A1 e2) :
    preStrengthScore A2 pat < preStrengthScore A1 pat ∧
    patternStrengthScore A2 pat ≤ patternStrengthScore A1 pat := by
  have hL : 0 < orbLimit e.aspectName := orbLimit_pos _
  have hn1 : a1.aspectName = e.aspectName := congrArg Prod.snd (lookupAspect_key h1)
  have hn2 : a2.aspectName = e.aspectName := congrArg Prod.snd (lookupAspect_key h2)
  have ht1 : tightnessForEdge A1 e = 1 - a1.orbDeg / orbLimit e.aspectName := by
    unfold tightnessForEdge
    rw [h1]
    dsimp only
    rw [hn1]
    refine max_eq_right ?_
    have hd : a1.orbDeg / orbLimit e.aspectName ≤ 1 := by
      rw [div_le_one hL]
      linarith
    linarith
  have ht2 : tightnessForEdge A2 e = 1 - a2.orbDeg / orbLimit e.aspectName := by
    unfold tightnessForEdge
    rw [h2]
    dsimp only
    rw [hn2]
    refine max_eq_right ?_
    have hd : a2.orbDeg / orbLimit e.aspectName ≤ 1 := by
      rw [div_le_one hL]
      linarith
    linarith
  have htlt : tightnessForEdge A2 e < tightnessForEdge A1 e := by
    rw [ht1, ht2]
    have hd : a1.orbDeg / orbLimit e.aspectName < a2.orbDeg / orbLimit e.aspectName := by
      gcongr
    linarith
  have hsum : (pat.edges.map (tightnessForEdge A2)).sum <
      (pat.edges.map (tightnessForEdge A1)).sum := by
    refine List.sum_lt_sum (tightnessForEdge A2) (tightnessForEdge A1) ?_ ⟨e, he, htlt⟩
    intro e2 he2
    by_cases hcase : e2 = e
    · subst hcase
      exact le_of_lt htlt
    · rw [hoth e2 he2 hcase]
  have hne : ¬ pat.edges = [] := by
    intro hnil
    rw [hnil] at he
    simp at he
  have hlen : (0:ℚ) < (pat.edges.length : ℚ) := by
    have hp : 0 < pat.edges.length := List.length_pos.mpr hne
    exact_mod_cast hp
  have hpre : preStrengthScore A2 pat < preStrengthScore A1 pat := by
    unfold preStrengthScore
    simp only [List.length_map]
    have hd : (pat.edges.map (tightnessForEdge A2)).sum / (pat.edges.length : ℚ) <
        (pat.edges.map (tightnessForEdge A1)).sum / (pat.edges.length : ℚ) := by
      gcongr
    linarith
  refine ⟨hpre, ?_⟩
  unfold patternStrengthScore
  rw [if_neg hne, if_neg hne]
  exact round3_mono (max_le_max le_rfl (min_le_min le_rfl (le_of_lt hpre)))

/-- First aspect list of the C3 counterexample: both conjunctions exact. -/
def aspC3A : List Aspect :=
  [mkAsp "sun" "x" "conjunction" 0, mkAsp "x" "y" "conjunction" 0]

/-- Second aspect list: the `x`-`y` conjunction orb grows to 0.4 (within
its limit 8); everything else is unchanged. -/
def aspC3B : List Aspect :=
  [mkAsp "sun" "x" "conjunction" 0, mkAsp "x" "y" "conjunction" (2/5)]

/-- The pattern scored in the C3 counterexample. -/
def patC3 : Pattern :=
  { patternType := "Grand Trine", members := ["sun", "x", "y"],
    edges := [⟨"sun", "x", "conjunction"⟩, ⟨"x", "y", "conjunction"⟩],
    patternScore := 8/10, hasOutOfSign := false }

/-- Claim C3 is false as stated: raising the orb of the contributing
`x`-`y` edge from 0 to 0.4 (toward its limit 8) with everything else fixed
leaves `pattern_strength_score` unchanged at 1, because the luminary bonus
pushes both scores past the upper clamp. -/
theorem C3_counterexample :
    (0:ℚ) < 2/5 ∧ (2:ℚ)/5 ≤ orbLimit "conjunction" ∧
    (lookupAspect aspC3A ((sortPair "x" "y"), "conjunction")).map (·.orbDeg) =
      some 0 ∧
    (lookupAspect aspC3B ((sortPair "x" "y"), "conjunction")).map (·.orbDeg) =
      some (2/5) ∧
    patternStrengthScore aspC3A patC3 = 1 ∧
    patternStrengthScore aspC3B patC3 = 1 := by
  refine ⟨by norm_num, by norm_num +decide [orbLimit], ?_, ?_, ?_, ?_⟩
  · norm_num +decide [lookupAspect, aspC3A, aspKey, sortPair, mkAsp, strLe,
      strLt, charsLt]
  · norm_num +decide [lookupAspect, aspC3B, aspKey, sortPair, mkAsp, strLe,
      strLt, charsLt]
  · norm_num +decide [patternStrengthScore, preStrengthScore, patC3, aspC3A,
      tightnessForEdge, lookupAspect, aspKey, sortPair, mkAsp, hasLuminary,
      lowerStr, lowerChar, orbLimit, round3, rhe, strLe, strLt, charsLt]
  · norm_num +decide [patternStrengthScore, preStrengthScore, patC3, aspC3B,
      tightnessForEdge, lookupAspect, aspKey, sortPair, mkAsp, hasLuminary,
      lowerStr, lowerChar, orbLimit, round3, rhe, strLe, strLt, charsLt]

/-- First aspect list of the C3 witness: two exact conjunctions, no
luminary, so no clamping hides the decrease. -/
def aspC3WA : List Aspect :=
  [mkAsp "p" "q" "conjunction" 0, mkAsp "q" "r" "conjunction" 0]

/-- Second aspect list of the C3 witness: the `q`-`r` orb grows to 1. -/
def aspC3WB : List Aspect :=
  [mkAsp "p" "q" "conjunction" 0, mkAsp "q" "r" "conjunction" 1]

/-- The pattern scored in the C3 witness. -/
def patC3W : Pattern :=
  { patternType := "Grand Trine", members := ["p", "q", "r"],
    edges := [⟨"p", "q", "conjunction"⟩, ⟨"q", "r", "conjunction"⟩],
    patternScore := 8/10, hasOutOfSign := false }

/-- Witness for the amended claim C3 at a concrete pattern and edge. -/
theorem C3_strength_monotone_witness :
    preStrengthScore aspC3WB patC3W < preStrengthScore aspC3WA patC3W ∧
    patternStrengthScore aspC3WB patC3W ≤ patternStrengthScore aspC3WA patC3W := by
  refine C3_strength_monotone aspC3WA aspC3WB patC3W ⟨"q", "r", "conjunction"⟩
    (by decide) (mkAsp "q" "r" "conjunction" 0) (mkAsp "q" "r" "conjunction" 1)
    ?_ ?_ ?_ ?_ ?_ ?_
  · norm_num +decide [lookupAspect, aspC3WA, aspKey, sortPair, mkAsp, strLe,
      strLt, charsLt]
  · norm_num +decide [lookupAspect, aspC3WB, aspKey, sortPair, mkAsp, strLe,
      strLt, charsLt]
  · norm_num [mkAsp]
  · norm_num [mkAsp]
  · norm_num +decide [mkAsp, orbLimit]
  · intro e2 he2 hne
    have he2' : e2 = (⟨"p", "q", "conjunction"⟩ : PatternEdge) ∨
        e2 = (⟨"q", "r", "conjunction"⟩ : PatternEdge) := by
      simpa [patC3W] using he2
    rcases he2' with rfl | rfl
    · norm_num +decide [tightnessForEdge, lookupAspect, aspC3WA, aspC3WB,
        aspKey, sortPair, mkAsp, strLe, strLt, charsLt]
    · exact absurd rfl hne

/-- Claim C7: for every aspect list, the combined detector output contains
at most one pattern per (pattern type, member list): the fingerprint
deduplication collapses all satisfying role-assignments over one subset. -/
theorem C7_unique_per_member_set (aspects : List Aspect) (t : String)
    (m : List String) :
    (detectAll aspects).countP
      (fun p => p.patternType == t && p.members == m) ≤ 1 := by
  have hgen : ∀ (l : List Pattern) (c : String),
      (∀ p ∈ l, p.patternType = c) → (l.map fingerprint).Nodup →
      ((c ≠ t → l.countP (fun p => p.patternType == t && p.members == m) = 0) ∧
       l.countP (fun p => p.patternType == t && p.members == m) ≤ 1) := by
    intro l c hc hnd
    constructor
    · intro hne
      rw [List.countP_eq_zero]
      intro p hp hQ
      simp only [Bool.and_eq_true, beq_iff_eq] at hQ
      exact hne (by rw [← hc p hp]; exact hQ.1)
    · apply countP_le_one_of_nodup_fp hnd
      intro p hp q hq hQp hQq
      simp only [Bool.and_eq_true, beq_iff_eq] at hQp hQq
      unfold fingerprint
      rw [hQp.1, hQp.2, hQq.1, hQq.2]
  have hY := hgen (detectYods aspects) "Yod"
    (fun p hp => detectYods_type hp) (emitAll_nodup_fp _)
  have hT := hgen (detectTSquares aspects) "T-Square"
    (fun p hp => detectTSquares_type hp) (emitAll_nodup_fp _)
  have hG := hgen (detectGrandTrines aspects) "Grand Trine"
    (fun p hp => detectGrandTrines_type hp) (emitAll_nodup_fp _)
  have hK := hgen (detectKites aspects) "Kite"
    (fun p hp => detectKites_type hp) (emitAll_nodup_fp _)
  have hM := hgen (detectMysticRectangles aspects) "Mystic Rectangle"
    (fun p hp => detectMysticRectangles_type hp) (emitAll_nodup_fp _)
  have hC := hgen (detectGrandCrosses aspects) "Grand Cross"
    (fun p hp => detectGrandCrosses_type hp) (emitAll_nodup_fp _)
  unfold detectAll
  simp only [List.countP_append]
  by_cases h1 : t = "Yod"
  · subst h1
    have hy := hY.2
    rw [hT.1 (by decide), hG.1 (by decide), hK.1 (by decide), hM.1 (by decide),
      hC.1 (by decide)]
    omega
  by_cases h2 : t = "T-Square"
  · subst h2
    have ht := hT.2
    rw [hY.1 (by decide), hG.1 (by decide), hK.1 (by decide), hM.1 (by decide),
      hC.1 (by decide)]
    omega
  by_cases h3 : t = "Grand Trine"
  · subst h3
    have hg := hG.2
    rw [hY.1 (by decide), hT.1 (by decide), hK.1 (by decide), hM.1 (by decide),
      hC.1 (by decide)]
    omega
  by_cases h4 : t = "Kite"
  · subst h4
    have hk := hK.2
    rw [hY.1 (by decide), hT.1 (by decide), hG.1 (by decide), hM.1 (by decide),
      hC.1 (by decide)]
    omega
  by_cases h5 : t = "Mystic Rectangle"
  · subst h5
    have hm := hM.2
    rw [hY.1 (by decide), hT.1 (by decide), hG.1 (by decide), hK.1 (by decide),
      hC.1 (by decide)]
    omega
  by_cases h6 : t = "Grand Cross"
  · subst h6
    have hc := hC.2
    rw [hY.1 (by decide), hT.1 (by decide), hG.1 (by decide), hK.1 (by decide),
      hM.1 (by decide)]
    omega
  · rw [hY.1 (fun hh => h1 hh.symm), hT.1 (fun hh => h2 hh.symm),
      hG.1 (fun hh => h3 hh.symm), hK.1 (fun hh => h4 hh.symm),
      hM.1 (fun hh => h5 hh.symm), hC.1 (fun hh => h6 hh.symm)]
    omega

/-- The C1 counterexample aspect list: the four-body set has its
oppositions on the pairing `a`-`c` and `b`-`d` (the second of the three
possible pairings) with all four cross-pairs in sextile. -/
def exMR : List Aspect :=
  [mkAsp "a" "c" "opposition" 0, mkAsp "b" "d" "opposition" 0,
   mkAsp "a" "b" "sextile" 0, mkAsp "a" "d" "sextile" 0,
   mkAsp "b" "c" "sextile" 0, mkAsp "c" "d" "sextile" 0]

/-- Claim C1 is false as stated: the four bodies `a`, `b`, `c`, `d` split
into the disjoint opposition pairs `a`-`c` and `b`-`d` with all four
cross-pairs in sextile, yet `detect_mystic_rectangles` emits nothing,
because it only tests the oppositions on the sorted pairing (first with
second, third with fourth). -/
theorem C1_counterexample :
    hasAspect exMR "a" "c" "opposition" = true ∧
    hasAspect exMR "b" "d" "opposition" = true ∧
    hasAspect exMR "a" "b" "sextile" = true ∧
    hasAspect exMR "a" "d" "sextile" = true ∧
    hasAspect exMR "b" "c" "sextile" = true ∧
    hasAspect exMR "c" "d" "sextile" = true ∧
    detectMysticRectangles exMR = [] := by
  decide

/-- Claim C1 (amended): a Mystic Rectangle is reported exactly once for a
four-body set when the realizing pairing is the sorted one, that is, the
two oppositions join the first with the second and the third with the
fourth member in sorted order (other pairings are not detected, as the
counterexample shows). -/
theorem C1_mystic_rectangle (aspects : List Aspect) (w x y z : String)
    (hwx : strLt w x) (hxy : strLt x y) (hyz : strLt y z)
    (ho1 : hasAspect aspects w x "opposition" = true)
    (ho2 : hasAspect aspects y z "opposition" = true)
    (hs1 : hasAspect aspects w y "sextile" = true)
    (hs2 : hasAspect aspects w z "sextile" = true)
    (hs3 : hasAspect aspects x y "sextile" = true)
    (hs4 : hasAspect aspects x z "sextile" = true) :
    (detectMysticRectangles aspects).countP
      (fun p => p.members == [w, x, y, z]) = 1 := by
  have hsle : List.Sorted strLe [w, x, y, z] := by
    refine List.sorted_cons.mpr ⟨?_, List.sorted_cons.mpr ⟨?_,
      List.sorted_cons.mpr ⟨?_, List.sorted_singleton z⟩⟩⟩
    · intro b hb
      simp only [List.mem_cons, List.not_mem_nil, or_false] at hb
      rcases hb with rfl | rfl | rfl
      · exact strLe_of_lt hwx
      · exact strLe_of_lt (strLt_trans hwx hxy)
      · exact strLe_of_lt (strLt_trans (strLt_trans hwx hxy) hyz)
    · intro b hb
      simp only [List.mem_cons, List.not_mem_nil, or_false] at hb
      rcases hb with rfl | rfl
      · exact strLe_of_lt hxy
      · exact strLe_of_lt (strLt_trans hxy hyz)
    · intro b hb
      simp only [List.mem_cons, List.not_mem_nil, or_false] at hb
      rcases hb with rfl
      · exact strLe_of_lt hyz
  have hss : sortStr [w, x, y, z] = [w, x, y, z] := sortStr_eq_of_sorted hsle
  have hq : (w, x, y, z) ∈ combos4 (bodiesFrom aspects) :=
    mem_combos4 (bodiesFrom_sorted aspects) (mem_bodiesFrom ho1).1
      (mem_bodiesFrom ho1).2 (mem_bodiesFrom ho2).1 (mem_bodiesFrom ho2).2
      hwx hxy hyz
  have hcand : mrCandidate aspects (w, x, y, z) = some
      { patternType := "Mystic Rectangle"
        members := sortStr [w, x, y, z]
        edges := [pedge "opposition" w x, pedge "opposition" y z,
                  pedge "sextile" w y, pedge "sextile" w z,
                  pedge "sextile" x y, pedge "sextile" x z]
        patternScore := 84/100
        hasOutOfSign := false } := by
    unfold mrCandidate
    dsimp only
    rw [ho1, ho2, hs1, hs2, hs3, hs4]
    rfl
  refine countP_eq_one_of_mem (emitAll_nodup_fp _) _ ?_ ?_
  · intro p hp q hq' hQp hQq
    have hpt := detectMysticRectangles_type hp
    have hqt := detectMysticRectangles_type hq'
    simp only [beq_iff_eq] at hQp hQq
    unfold fingerprint
    rw [hQp, hQq, hpt, hqt]
  · obtain ⟨q', hq', hfq⟩ := emitAll_exists _ ("Mystic Rectangle", [w, x, y, z])
      ⟨_, List.mem_map_of_mem _ hq, _, hcand, by simp [fingerprint, hss]⟩
    refine ⟨q', hq', ?_⟩
    have hm : q'.members = [w, x, y, z] := congrArg Prod.snd hfq
    simp [hm]

/-- The C1 witness aspect list: oppositions on the sorted pairing `a`-`b`
and `c`-`d`, sextiles on the four cross-pairs. -/
def exMR2 : List Aspect :=
  [mkAsp "a" "b" "opposition" 0, mkAsp "c" "d" "opposition" 0,
   mkAsp "a" "c" "sextile" 0, mkAsp "a" "d" "sextile" 0,
   mkAsp "b" "c" "sextile" 0, mkAsp "b" "d" "sextile" 0]

/-- Witness for the amended claim C1 at a concrete aspect list. -/
theorem C1_mystic_rectangle_witness :
    (detectMysticRectangles exMR2).countP
      (fun p => p.members == ["a", "b", "c", "d"]) = 1 :=
  C1_mystic_rectangle exMR2 "a" "b" "c" "d" (by decide) (by decide) (by decide)
    (by decide) (by decide) (by decide) (by decide) (by decide) (by decide)

lemma sorted_le_four {w x y z : String} (hwx : strLt w x) (hxy : strLt x y)
    (hyz : strLt y z) : List.Sorted strLe [w, x, y, z] := by
  refine List.sorted_cons.mpr ⟨?_, List.sorted_cons.mpr ⟨?_,
    List.sorted_cons.mpr ⟨?_, List.sorted_singleton z⟩⟩⟩
  · intro b hb
    simp only [List.mem_cons, List.not_mem_nil, or_false] at hb
    rcases hb with rfl | rfl | rfl
    · exact strLe_of_lt hwx
    · exact strLe_of_lt (strLt_trans hwx hxy)
    · exact strLe_of_lt (strLt_trans (strLt_trans hwx hxy) hyz)
  · intro b hb
    simp only [List.mem_cons, List.not_mem_nil, or_false] at hb
    rcases hb with rfl | rfl
    · exact strLe_of_lt hxy
    · exact strLe_of_lt (strLt_trans hxy hyz)
  · intro b hb
    simp only [List.mem_cons, List.not_mem_nil, or_false] at hb
    rcases hb with rfl
    · exact strLe_of_lt hyz

/-- The requirement of one Grand Cross pairing: the pairs `p`-`q` and
`r`-`s` in opposition and the four cross-pairs all in square. -/
def gcReq (aspects : List Aspect) (p q r s : String) : Prop :=
  hasAspect aspects p q "opposition" = true ∧
  hasAspect aspects r s "opposition" = true ∧
  hasAspect aspects p r "square" = true ∧
  hasAspect aspects p s "square" = true ∧
  hasAspect aspects q r "square" = true ∧
  hasAspect aspects q s "square" = true

/-- Claim C8: for every aspect list and every four-body set (sorted as
`w < x < y < z`) admitting some pairing into two disjoint opposition pairs
with the four cross-pairs all in square — any of the three partitions —
exactly one Grand Cross with those members is emitted: the enumerated
pairings cover all three partitions of the set into two pairs. -/
theorem C8_grand_cross (aspects : List Aspect) (w x y z : String)
    (hwx : strLt w x) (hxy : strLt x y) (hyz : strLt y z)
    (hp : gcReq aspects w x y z ∨ gcReq aspects w y x z ∨
      gcReq aspects w z x y) :
    (detectGrandCrosses aspects).countP
      (fun p => p.members == [w, x, y, z]) = 1 := by
  have hss : sortStr [w, x, y, z] = [w, x, y, z] :=
    sortStr_eq_of_sorted (sorted_le_four hwx hxy hyz)
  have hmem4 : w ∈ bodiesFrom aspects ∧ x ∈ bodiesFrom aspects ∧
      y ∈ bodiesFrom aspects ∧ z ∈ bodiesFrom aspects := by
    rcases hp with h | h | h
    · exact ⟨(mem_bodiesFrom h.1).1, (mem_bodiesFrom h.1).2,
        (mem_bodiesFrom h.2.1).1, (mem_bodiesFrom h.2.1).2⟩
    · exact ⟨(mem_bodiesFrom h.1).1, (mem_bodiesFrom h.2.1).1,
        (mem_bodiesFrom h.1).2, (mem_bodiesFrom h.2.1).2⟩
    · exact ⟨(mem_bodiesFrom h.1).1, (mem_bodiesFrom h.2.1).1,
        (mem_bodiesFrom h.2.1).2, (mem_bodiesFrom h.1).2⟩
  have hq : (w, x, y, z) ∈ combos4 (bodiesFrom aspects) :=
    mem_combos4 (bodiesFrom_sorted aspects) hmem4.1 hmem4.2.1 hmem4.2.2.1
      hmem4.2.2.2 hwx hxy hyz
  have hex : ∃ oc ∈ ((combos4 (bodiesFrom aspects)).flatMap fun q =>
      [gcOpt aspects (sortStr [q.1, q.2.1, q.2.2.1, q.2.2.2]) q.1 q.2.2.1 q.2.1 q.2.2.2,
       gcOpt aspects (sortStr [q.1, q.2.1, q.2.2.1, q.2.2.2]) q.1 q.2.1 q.2.2.1 q.2.2.2,
       gcOpt aspects (sortStr [q.1, q.2.1, q.2.2.1, q.2.2.2]) q.1 q.2.2.2 q.2.1 q.2.2.1,
       gcOpt aspects (sortStr [q.1, q.2.1, q.2.2.1, q.2.2.2]) q.2.1 q.2.2.1 q.1 q.2.2.2]),
      ∃ p, oc = some p ∧ fingerprint p = ("Grand Cross", [w, x, y, z]) := by
    rcases hp with h | h | h
    · refine ⟨gcOpt aspects (sortStr [w, x, y, z]) w x y z,
        List.mem_flatMap.mpr ⟨(w, x, y, z), hq, by simp⟩, ?_⟩
      have hyx : hasAspect aspects y x "square" = true := by
        rw [hasAspect_comm]; exact h.2.2.2.2.1
      have hzw : hasAspect aspects z w "square" = true := by
        rw [hasAspect_comm]; exact h.2.2.2.1
      have hopt : gcOpt aspects (sortStr [w, x, y, z]) w x y z = some
          { patternType := "Grand Cross", members := sortStr [w, x, y, z],
            edges := [pedge "opposition" w x, pedge "opposition" y z,
              pedge "square" w y, pedge "square" y x, pedge "square" x z,
              pedge "square" z w],
            patternScore := 88/100, hasOutOfSign := false } := by
        unfold gcOpt
        rw [h.1, h.2.1, h.2.2.1, hyx, h.2.2.2.2.2, hzw]
        rfl
      exact ⟨_, hopt, by simp [fingerprint, hss]⟩
    · refine ⟨gcOpt aspects (sortStr [w, x, y, z]) w y x z,
        List.mem_flatMap.mpr ⟨(w, x, y, z), hq, by simp⟩, ?_⟩
      have hxy' : hasAspect aspects x y "square" = true := by
        rw [hasAspect_comm]; exact h.2.2.2.2.1
      have hzw : hasAspect aspects z w "square" = true := by
        rw [hasAspect_comm]; exact h.2.2.2.1
      have hopt : gcOpt aspects (sortStr [w, x, y, z]) w y x z = some
          { patternType := "Grand Cross", members := sortStr [w, x, y, z],
            edges := [pedge "opposition" w y, pedge "opposition" x z,
              pedge "square" w x, pedge "square" x y, pedge "square" y z,
              pedge "square" z w],
            patternScore := 88/100, hasOutOfSign := false } := by
        unfold gcOpt
        rw [h.1, h.2.1, h.2.2.1, hxy', h.2.2.2.2.2, hzw]
        rfl
      exact ⟨_, hopt, by simp [fingerprint, hss]⟩
    · refine ⟨gcOpt aspects (sortStr [w, x, y, z]) w z x y,
        List.mem_flatMap.mpr ⟨(w, x, y, z), hq, by simp⟩, ?_⟩
      have hxz : hasAspect aspects x z "square" = true := by
        rw [hasAspect_comm]; exact h.2.2.2.2.1
      have hyw : hasAspect aspects y w "square" = true := by
        rw [hasAspect_comm]; exact h.2.2.2.1
      have hopt : gcOpt aspects (sortStr [w, x, y, z]) w z x y = some
          { patternType := "Grand Cross", members := sortStr [w, x, y, z],
            edges := [pedge "opposition" w z, pedge "opposition" x y,
              pedge "square" w x, pedge "square" x z, pedge "square" z y,
              pedge "square" y w],
            patternScore := 88/100, hasOutOfSign := false } := by
        unfold gcOpt
        rw [h.1, h.2.1, h.2.2.1, hxz, h.2.2.2.2.2, hyw]
        rfl
      exact ⟨_, hopt, by simp [fingerprint, hss]⟩
  refine countP_eq_one_of_mem (emitAll_nodup_fp _) _ ?_ ?_
  · intro p hp' q hq' hQp hQq
    have hpt := detectGrandCrosses_type hp'
    have hqt := detectGrandCrosses_type hq'
    simp only [beq_iff_eq] at hQp hQq
    unfold fingerprint
    rw [hQp, hQq, hpt, hqt]
  · obtain ⟨q', hq', hfq⟩ :=
      emitAll_exists _ ("Grand Cross", [w, x, y, z]) hex
    refine ⟨q', hq', ?_⟩
    have hm : q'.members = [w, x, y, z] := congrArg Prod.snd hfq
    simp [hm]

/-- The C8 witness aspect list: oppositions `a`-`b` and `c`-`d` with the
four cross-pairs in square. -/
def exGC : List Aspect :=
  [mkAsp "a" "b" "opposition" 0, mkAsp "c" "d" "opposition" 0,
   mkAsp "a" "c" "square" 0, mkAsp "a" "d" "square" 0,
   mkAsp "b" "c" "square" 0, mkAsp "b" "d" "square" 0]

/-- Witness for claim C8 at a concrete aspect list. -/
theorem C8_grand_cross_witness :
    (detectGrandCrosses exGC).countP
      (fun p => p.members == ["a", "b", "c", "d"]) = 1 :=
  C8_grand_cross exGC "a" "b" "c" "d" (by decide) (by decide) (by decide)
    (Or.inl (by unfold gcReq; decide))

/-- Witness for claim C4 at the two-body phase example (the square
definition passes at separation 91°). -/
theorem C4_classifier_witness :
    ∃ e ∈ calcAspects ["a", "b"] posC2 spdC2, matchPair "a" "b" e = true ∧
      (calcAspects ["a", "b"] posC2 spdC2).countP (matchPair "a" "b") = 1 ∧
      BestFor (angularDistance (posC2 "a") (posC2 "b")) ASPECT_DEFS
        (some (e.aspectName, e.ideal,
          |angularDistance (posC2 "a") (posC2 "b") - e.ideal|)) := by
  have hs : List.Sorted strLt ["a", "b"] := by
    refine List.sorted_cons.mpr ⟨?_, List.sorted_singleton _⟩
    intro b hb
    simp only [List.mem_singleton] at hb
    subst hb
    decide
  have hpass : ∃ d ∈ ASPECT_DEFS, passes (angularDistance (posC2 "a") (posC2 "b")) d := by
    refine ⟨("square", 90), by norm_num [ASPECT_DEFS], ?_⟩
    unfold passes
    rw [angC2]
    norm_num +decide [orbLimit]
  exact (C4_classifier ["a", "b"] posC2 spdC2 hs "a" "b" (by decide) (by decide)
    (by decide)).2.1 hpass
